import Mathlib

/-!
# A shallow embedding of the zub-vm core

This file embeds, in Lean, the parts of the zub-vm runtime that the
verified statements below are about: the NaN-boxed value model
(`src/vm/value/value.rs`), chunks and the constant pool
(`src/vm/chunk.rs`), heap objects and upvalue cells
(`src/vm/value/object.rs`), the bytecode interpreter
(`src/vm/vm.rs`), the closure-emission tail of the compiler
(`src/compiler/compiler.rs`), and the mark-and-sweep collector
(`src/vm/gc/mod.rs`, `src/vm/gc/trace.rs`).

Modelling conventions, chosen once and used throughout:

* `f64` floats are modelled as rationals (`ℚ`).  None of the proved
  statements depends on IEEE-754 rounding, NaN or infinities; the
  operations the statements exercise (`+`, comparison for bit-equality,
  decoding) agree with the rational model on the inputs used.
  `f64::powf`, whose result the rational model cannot express, is an
  explicit parameter of the machine (`Env.powf`).
* A NaN-boxed `Value` is modelled by its decoded variant: the Rust
  `Value::decode` is a bijection between well-formed raw words and
  variants, and raw-word equality (`PartialEq` on the tagged handle)
  coincides with variant equality for the values the VM constructs.
* Machine integers (`u8`, `u16`, `usize`) are `Nat` with explicit
  `% 256` (resp. `% 65536`) where Rust truncates with `as`; an
  arithmetic underflow that would panic in Rust surfaces as an
  `Except.error`.
* Rust panics (`panic!`, failing `expect`/`unwrap`, out-of-bounds
  indexing) and `VM::runtime_error` (which exits the process) are both
  modelled as `Except.error msg`: each terminates execution abnormally.
* The byte stream of a chunk is a `List Code`.  A `Code` is either a
  plain byte or, for the 8-byte payload written by `Chunk::write_u64`
  for the `Immediate` instruction, a tagged value slot followed by
  seven padding bytes, so that every instruction occupies exactly as
  many code units as in the Rust byte stream and instruction-pointer
  arithmetic is unchanged.
* `Vec` push/pop at the back is list append/`dropLast` for the operand
  stack (so absolute stack indices match list indices) and cons at the
  head for the call-frame stack (only its top and bottom are ever
  accessed).
* Shared mutable `UpValue` cells (`Rc<RefCell<Result<Value, usize>>>`)
  live in a cell store indexed by allocation order; a closure and the
  open-upvalue list refer to cells by index, which models the shared
  `Rc` aliasing.
* Native functions are `fn` pointers in Rust; they are modelled by an
  index into an ambient table `Env.natives` mapping the argument window
  of the stack (callee at position 0) to the returned value.
* The chunk's line table and the disassembler, which affect only
  diagnostic output, are omitted; `Chunk::write(op, line)` is modelled
  as appending the opcode's encoding.
* The garbage collector is modelled on its own state (`gcMark`,
  `cleanExcluding` below); a collection removes only unmarked heap
  objects and never changes the stack, frames or globals, so the step
  relation of the interpreter allocates without triggering it.
-/

namespace Zub

/-- Decoded NaN-boxed value (`Value` / `Variant`, `src/vm/value/value.rs`).
Floats are modelled as `ℚ`; `obj` carries the heap handle. -/
inductive Value where
  | float (n : ℚ)
  | vtrue
  | vfalse
  | nil
  | obj (h : Nat)
deriving DecidableEq, Repr

/-- Rust `Value::truthy`: only `False` and `Nil` are falsy. -/
def Value.truthy : Value → Bool
  | .vfalse => false
  | .nil => false
  | _ => true

/-- Rust `impl Into<Value> for bool`. -/
def Value.ofBool (b : Bool) : Value :=
  if b then .vtrue else .vfalse

/-- Rust `Value::as_object`. -/
def Value.as_object : Value → Option Nat
  | .obj h => some h
  | _ => none

/-- One unit of a chunk's `code: Vec<u8>`: a byte, or the tagged slot
holding the value whose raw 64 bits `Chunk::write_u64` stores (the slot
is followed by seven `pad` units so `ip` arithmetic matches the byte
stream). -/
inductive Code where
  | byte (b : Nat)
  | val (v : Value)
deriving DecidableEq, Repr

/-- Rust `Chunk` (`src/vm/chunk.rs`), without the diagnostic line table. -/
structure Chunk where
  code : List Code
  name : String
  constants : List Value
deriving DecidableEq, Repr

/-- Rust `Chunk::new`. -/
def Chunk.new (name : String) : Chunk :=
  { code := [], name := name, constants := [] }

/-- Rust `Chunk::add_constant`: scan the pool for an equal value and return
its index; otherwise panic at 1028 entries or push and return the new
index.  Indices are returned as `u8` (`as u8` truncates mod 256). -/
def Chunk.add_constant (c : Chunk) (constant : Value) : Except String (Chunk × Nat) :=
  match c.constants.findIdx? (fun x => x = constant) with
  | some i => .ok (c, i % 256)
  | none =>
    if c.constants.length = 1028 then
      .error "A chunk cannot have more than 1028 constants"
    else
      let cs := c.constants ++ [constant]
      .ok ({ c with constants := cs }, (cs.length - 1) % 256)

/-- Rust `Chunk::get_constant`. -/
def Chunk.get_constant (c : Chunk) (idx : Nat) : Option Value :=
  c.constants.get? idx

/-- The `Op` enum (`src/vm/chunk.rs`). -/
inductive Op where
  | Return
  | Constant (idx : Nat)
  | Nil
  | True
  | False
  | Pop
  | GetLocal
  | SetLocal
  | GetGlobal
  | DefineGlobal
  | SetGlobal
  | GetUpValue
  | SetUpValue
  | Equal
  | Less
  | Greater
  | Add
  | Sub
  | Mul
  | Div
  | Rem
  | Pow
  | Not
  | Neg
  | Print
  | Jump
  | JumpIfFalse
  | Loop
  | Immediate
  | Call (a : Nat)
  | Closure
  | CloseUpValue
  | List
  | Dict
  | GetElement
  | SetElement
deriving DecidableEq, Repr

/-- A sequence of code units (named so that `Op.write`'s signature does
not capture the `Op.List` constructor). -/
abbrev CodeSeq := List Code

/-- Rust `Op::write`: the opcode byte each instruction pushes onto the code
vector (`Call(a)` is `0x17 + a`; `Constant` also pushes its index). -/
def Op.write : Op → CodeSeq
  | .Return => [.byte 0x00]
  | .Constant idx => [.byte 0x01, .byte idx]
  | .Print => [.byte 0x02]
  | .Add => [.byte 0x03]
  | .Sub => [.byte 0x04]
  | .Mul => [.byte 0x05]
  | .Div => [.byte 0x06]
  | .Not => [.byte 0x07]
  | .Neg => [.byte 0x08]
  | .Equal => [.byte 0x09]
  | .Greater => [.byte 0x0a]
  | .Less => [.byte 0x0b]
  | .Jump => [.byte 0x0c]
  | .JumpIfFalse => [.byte 0x0d]
  | .Pop => [.byte 0x0e]
  | .GetGlobal => [.byte 0x0f]
  | .SetGlobal => [.byte 0x10]
  | .GetLocal => [.byte 0x11]
  | .SetLocal => [.byte 0x12]
  | .Immediate => [.byte 0x13]
  | .Nil => [.byte 0x14]
  | .True => [.byte 0x15]
  | .False => [.byte 0x16]
  | .Call a => [.byte (0x17 + a)]
  | .Loop => [.byte 0x20]
  | .CloseUpValue => [.byte 0x21]
  | .GetUpValue => [.byte 0x22]
  | .SetUpValue => [.byte 0x23]
  | .Closure => [.byte 0x24]
  | .DefineGlobal => [.byte 0x25]
  | .List => [.byte 0x26]
  | .Rem => [.byte 0x27]
  | .Dict => [.byte 0x28]
  | .SetElement => [.byte 0x29]
  | .GetElement => [.byte 0x30]
  | .Pow => [.byte 0x31]

/-- Rust `Chunk::write` (the line-table update is diagnostic only and omitted). -/
def Chunk.write (c : Chunk) (op : Op) : Chunk :=
  { c with code := c.code ++ op.write }

/-- Rust `Chunk::write_byte`. -/
def Chunk.write_byte (c : Chunk) (b : Nat) : Chunk :=
  { c with code := c.code ++ [.byte b] }

/-- Rust `Chunk::write_u64` as used for `Immediate` payloads: the raw bits of
a value in eight little-endian bytes, modelled as one tagged slot plus
seven padding bytes (see the module conventions). -/
def Chunk.write_u64_value (c : Chunk) (v : Value) : Chunk :=
  { c with code := c.code ++ [.val v, .byte 0, .byte 0, .byte 0, .byte 0, .byte 0, .byte 0, .byte 0] }

/-- Rust `Function` (`src/vm/value/object.rs`). -/
structure Function where
  name : String
  chunk : Chunk
  arity : Nat
  upvalue_count : Nat
deriving DecidableEq, Repr

/-- Rust `Closure`: a function plus its upvalue cells, by cell index into the
VM's cell store (modelling the shared `Rc<RefCell<_>>` cells). -/
structure Closure where
  function : Function
  upvalues : List Nat
deriving DecidableEq, Repr

/-- Rust `NativeFunction`: the `fn` pointer is an index into `Env.natives`. -/
structure NativeFunction where
  name : String
  arity : Nat
  fid : Nat
deriving DecidableEq, Repr

/-- Dict keys.  `HashVariant` is referenced by `src/vm/vm.rs` but its
definition is absent from the sources; modelled from the spec (§4.3
Hashing) and the inline conversion in `VM::set_element`:
float → truncated integer, bool, string content, nil. -/
inductive HashVariant where
  | int (i : Int)
  | bool (b : Bool)
  | str (s : String)
  | nil
deriving DecidableEq, Repr

/-- Rust `Object` (`src/vm/value/object.rs`).  `dict` is the persistent map
as an association list. -/
inductive Object where
  | string (s : String)
  | function (f : Function)
  | nativeFunction (nf : NativeFunction)
  | closure (c : Closure)
  | list (content : List Value)
  | dict (content : List (HashVariant × Value))
deriving DecidableEq, Repr

/-- Rust `Object::as_string`. -/
def Object.as_string : Object → Option String
  | .string s => some s
  | _ => none

/-- Rust `Object::as_function`. -/
def Object.as_function : Object → Option Function
  | .function f => some f
  | _ => none

/-- Rust `Object::as_closure`. -/
def Object.as_closure : Object → Option Closure
  | .closure c => some c
  | _ => none

/-- Rust `Object::as_list`. -/
def Object.as_list : Object → Option (List Value)
  | .list l => some l
  | _ => none

/-- Rust `Object::as_dict`. -/
def Object.as_dict : Object → Option (List (HashVariant × Value))
  | .dict d => some d
  | _ => none

/-- An upvalue cell's contents, exactly the Rust
`Result<Value, usize>`: `.error slot` is an open upvalue pointing at a
stack slot, `.ok v` is a closed upvalue owning `v`. -/
abbrev Cell := Except Nat Value

instance {ε α : Type} [DecidableEq ε] [DecidableEq α] : DecidableEq (Except ε α) :=
  fun a b =>
    match a, b with
    | .error i, .error j =>
      if h : i = j then .isTrue (by simp [h]) else .isFalse (by simp [h])
    | .ok v, .ok w =>
      if h : v = w then .isTrue (by simp [h]) else .isFalse (by simp [h])
    | .error _, .ok _ => .isFalse (by simp)
    | .ok _, .error _ => .isFalse (by simp)

/-- Rust `UpValue::close`: an open cell closes over the value the callback
reads from the slot; a closed cell is unchanged. -/
def Cell.close (f : Nat → Value) : Cell → Cell
  | .error e => .ok (f e)
  | .ok v => .ok v

/-- Rust `UpValue::as_local`. -/
def Cell.as_local : Cell → Option Nat
  | .error i => some i
  | .ok _ => none

/-- Rust `CallFrame` (`src/vm/vm.rs`): `closure` is a heap handle. -/
structure Frame where
  closure : Nat
  ip : Nat
  stackStart : Nat
deriving DecidableEq, Repr

/-- The VM state (`struct VM` plus the upvalue cell store and the
values printed so far).  Frames: head = most recently pushed.  Stack:
list index = absolute stack slot, push at the end. -/
structure VMState where
  stack : List Value
  frames : List Frame
  globals : List (String × Value)
  heap : List Object
  cells : List Cell
  openUpvalues : List Nat
  output : List Value
deriving DecidableEq, Repr

/-- Rust `VM::new`. -/
def VMState.new : VMState :=
  { stack := [], frames := [], globals := [], heap := [],
    cells := [], openUpvalues := [], output := [] }

/-- Ambient environment: the native-function table (by `fid`, mapping
the stack window from the callee slot to the returned value) and the
`f64::powf` primitive the rational float model cannot express. -/
structure Env where
  natives : Nat → List Value → Value
  powf : ℚ → ℚ → ℚ

/-- Truncation toward zero, the behaviour of Rust's `as i64` cast on a
float. -/
def qTrunc (q : ℚ) : Int :=
  if 0 ≤ q then Int.floor q else Int.ceil q

/-- Display form of a float, used when `Add` concatenates a string with
a number (the rational model of `format!` on an `f64`). -/
def floatStr (q : ℚ) : String :=
  toString q

/-- Semantics of `HashMap::insert` on the association-list model of a
dict: replace the value of an existing key, else append the pair. -/
def dictInsert (d : List (HashVariant × Value)) (k : HashVariant) (v : Value) :
    List (HashVariant × Value) :=
  if (d.lookup k).isSome then d.map (fun p => if p.1 = k then (p.1, v) else p)
  else d ++ [(k, v)]

/-- Semantics of `HashMap::get_mut`-update-or-`insert` on the
association-list model of the globals map, as performed by
`VM::set_global`. -/
def globalsSet (g : List (String × Value)) (k : String) (v : Value) :
    List (String × Value) :=
  if (g.lookup k).isSome then g.map (fun p => if p.1 = k then (p.1, v) else p)
  else g ++ [(k, v)]

namespace VMState

/-- Chunk of the closure a frame executes
(`CallFrame::with_chunk`; the `expect` is modelled as an error). -/
def chunkOf (s : VMState) (f : Frame) : Except String Chunk :=
  match s.heap.get? f.closure with
  | some o =>
    match o.as_closure with
    | some c => .ok c.function.chunk
    | none => .error "closure reference by construction"
  | none => .error "closure reference by construction"

/-- Reading `CallFrame::read_byte` of the current frame
(`VM::read_byte`): fetch the byte at `ip` and advance `ip` by one. -/
def readByte (s : VMState) : Except String (Nat × VMState) := do
  match s.frames with
  | [] => .error "frames to be nonempty"
  | f :: rest =>
    let chunk ← s.chunkOf f
    match chunk.code.get? f.ip with
    | some (.byte b) => .ok (b, { s with frames := { f with ip := f.ip + 1 } :: rest })
    | some (.val _) => .error "immediate payload read as a byte"
    | none => .error "index out of bounds"

/-- Reading `CallFrame::read_u16`: two little-endian bytes, `ip += 2`. -/
def readU16 (s : VMState) : Except String (Nat × VMState) := do
  match s.frames with
  | [] => .error "frames to be nonempty"
  | f :: rest =>
    let chunk ← s.chunkOf f
    match chunk.code.get? f.ip, chunk.code.get? (f.ip + 1) with
    | some (.byte lo), some (.byte hi) =>
      .ok (lo + 256 * hi, { s with frames := { f with ip := f.ip + 2 } :: rest })
    | _, _ => .error "index out of bounds"

/-- Reading `CallFrame::read_u64` followed by `Value::from_raw`
(`VM::immediate`): the payload slot holds the value, `ip += 8`. -/
def readImmediate (s : VMState) : Except String (Value × VMState) := do
  match s.frames with
  | [] => .error "frames to be nonempty"
  | f :: rest =>
    let chunk ← s.chunkOf f
    match chunk.code.get? f.ip with
    | some (.val v) => .ok (v, { s with frames := { f with ip := f.ip + 8 } :: rest })
    | _ => .error "index out of bounds"

/-- Reading `CallFrame::read_constant_at`. -/
def readConstantAt (s : VMState) (idx : Nat) : Except String Value := do
  match s.frames with
  | [] => .error "frames to be nonempty"
  | f :: _ =>
    let chunk ← s.chunkOf f
    match chunk.get_constant idx with
    | some v => .ok v
    | none => .error "invalid constant index"

/-- Reading `CallFrame::read_constant`: a byte index, then the pool
entry. -/
def readConstant (s : VMState) : Except String (Value × VMState) := do
  let (idx, s) ← s.readByte
  let v ← s.readConstantAt idx
  .ok (v, s)

/-- Pushing `VM::push`: overflow at `STACK_SIZE = 4096` is fatal. -/
def push (s : VMState) (value : Value) : Except String VMState :=
  if s.stack.length = 4096 then .error "STACK OVERFLOW"
  else .ok { s with stack := s.stack ++ [value] }

/-- Popping `VM::pop` (`expect`s a nonempty stack). -/
def pop (s : VMState) : Except String (Value × VMState) :=
  match s.stack.getLast? with
  | some v => .ok (v, { s with stack := s.stack.dropLast })
  | none => .error "stack to be nonempty"

/-- Peeking `VM::peek`. -/
def peek (s : VMState) : Except String Value :=
  match s.stack.getLast? with
  | some v => .ok v
  | none => .error "stack to be nonempty"

/-- Dereferencing `VM::deref` / `Heap::get_unchecked`. -/
def deref (s : VMState) (h : Nat) : Except String Object :=
  match s.heap.get? h with
  | some o => .ok o
  | none => .error "dangling heap handle"

/-- Allocation `VM::allocate` without the collection trigger (see the
module conventions): fresh handle at the end of the heap. -/
def allocate (s : VMState) (object : Object) : Nat × VMState :=
  (s.heap.length, { s with heap := s.heap ++ [object] })

/-- Reading an upvalue cell through its `Rc`. -/
def cellGet (s : VMState) (cid : Nat) : Except String Cell :=
  match s.cells.get? cid with
  | some c => .ok c
  | none => .error "dangling upvalue cell"

/-- The `stack[i]` read several handlers start with (a Rust index
panic when out of bounds). -/
def stackValueAt (s : VMState) (i : Nat) : Except String Value :=
  match s.stack.get? i with
  | some v => .ok v
  | none => .error "index out of bounds"

/-- The `as_object → deref → as_string` expectation that
`GetGlobal`, `DefineGlobal` and `SetGlobal` each perform inline on
their constant (failing with the respective `expect` message). -/
def readString (s : VMState) (v : Value) (msg : String) : Except String String :=
  match v.as_object with
  | some h =>
    match s.heap.get? h with
    | some o =>
      match o.as_string with
      | some str => .ok str
      | none => .error msg
    | none => .error "dangling heap handle"
  | none => .error msg

/-- The `as_object → deref → as_function` expectation `VM::closure`
performs inline on its constant. -/
def functionOf (s : VMState) (v : Value) : Except String Function :=
  match v.as_object with
  | some h =>
    match s.heap.get? h with
    | some o =>
      match o.as_function with
      | some f => .ok f
      | none => .error "closure expected function argument"
    | none => .error "dangling heap handle"
  | none => .error "closure expected function argument"

/-- The `as_object().unwrap()` on a container value in
`VM::set_element` / `VM::index`. -/
def expectObject (v : Value) : Except String Nat :=
  match v.as_object with
  | some h => .ok h
  | none => .error "unwrap on a non-object value"

/-- The inline key-shape conversion of `VM::set_element`
(`match index.decode() { Float → Int(n as i64), bools, Str, Nil }`;
a non-string object key is the `unwrap` panic). -/
def hashVariantOf (s : VMState) (index : Value) : Except String HashVariant :=
  match index with
  | .float n => .ok (HashVariant.int (qTrunc n))
  | .vtrue => .ok (HashVariant.bool true)
  | .vfalse => .ok (HashVariant.bool false)
  | .obj h =>
    match s.heap.get? h with
    | some o =>
      match o.as_string with
      | some str => .ok (HashVariant.str str)
      | none => .error "unwrap on a non-string object"
    | none => .error "dangling heap handle"
  | .nil => .ok HashVariant.nil

/-- Writing an upvalue cell through its `Rc`. -/
def cellSet (s : VMState) (cid : Nat) (c : Cell) : VMState :=
  { s with cells := s.cells.set cid c }

end VMState

namespace VM

/-- Closure object of the currently executing frame
(`VM::current_closure`). -/
def current_closure (s : VMState) : Except String Closure := do
  match s.frames with
  | [] => .error "frames to be nonempty"
  | f :: _ =>
    let o ← s.deref f.closure
    match o.as_closure with
    | some c => .ok c
    | none => .error "valid closure"

/-- One iteration of the `VM::close_upvalues` loop over the swapped-out
open-upvalue list.  The source decides with
`up.get().map_err(|i| i >= stack_end).is_err()`: the comparison
`i >= stack_end` computed by `map_err` is discarded by `is_err`, so the
branch taken depends only on whether the cell is open.  An open cell
(whatever its slot) is closed over `stack[slot]` and re-listed; an
already-closed cell is dropped from the list. -/
def close_upvalues_step (stack_end : Nat) (s : VMState) (cid : Nat) :
    Except String VMState := do
  let cell ← s.cellGet cid
  if (cell.mapError (fun i => stack_end ≤ i)).isOk then
    .ok s
  else
    match cell with
    | .error i =>
      match s.stack.get? i with
      | some v =>
        let s := s.cellSet cid (.ok v)
        .ok { s with openUpvalues := s.openUpvalues ++ [cid] }
      | none => .error "index out of bounds"
    | .ok _ => .ok { s with openUpvalues := s.openUpvalues ++ [cid] }

/-- Closing upvalues (`VM::close_upvalues`): `mem::swap` the list out,
then run the loop over the old entries. -/
def close_upvalues (s : VMState) (stack_end : Nat) : Except String VMState :=
  s.openUpvalues.foldlM (close_upvalues_step stack_end) { s with openUpvalues := [] }

/-- Returning (`VM::ret`): pop the frame, pop the return value, close
upvalues if the frame owned live slots, truncate to the frame's stack
base and push the return value back. -/
def ret (s : VMState) : Except String VMState := do
  match s.frames with
  | frame :: rest =>
    let s := { s with frames := rest }
    let (return_value, s) ← s.pop
    let s ← if frame.stackStart < s.stack.length then close_upvalues s frame.stackStart
      else .ok s
    let s := { s with stack := s.stack.take frame.stackStart }
    s.push return_value
  | [] => .error "can't return from top-level"

/-- Capturing a local as an upvalue (`VM::capture_upvalue`): search the
open-upvalue list from the back for an open cell at the absolute slot,
else allocate a fresh open cell and list it. -/
def capture_upvalue (s : VMState) (idx : Nat) : Except String (Nat × VMState) := do
  match s.frames with
  | [] => .error "frames to be nonempty"
  | f :: _ =>
    let offset := f.stackStart + idx
    match s.openUpvalues.reverse.find? (fun cid =>
        match s.cells.get? cid with
        | some c => (c.as_local.map (fun i => decide (i = offset))).getD false
        | none => false) with
    | some cid => .ok (cid, s)
    | none =>
      let cid := s.cells.length
      .ok (cid, { s with
        cells := s.cells ++ [(.error offset : Cell)],
        openUpvalues := s.openUpvalues ++ [cid] })

/-- The `CloseUpValue` instruction (`VM::close_upvalue`): close with
the top-of-stack slot as threshold, then pop. -/
def close_upvalue (s : VMState) : Except String VMState := do
  match s.stack.length with
  | 0 => .error "attempt to subtract with overflow"
  | n + 1 =>
    let s ← close_upvalues s n
    let (_, s) ← s.pop
    .ok s

/-- The `Constant` instruction (`VM::constant`). -/
def constant (idx : Nat) (s : VMState) : Except String VMState := do
  let val ← s.readConstantAt idx
  s.push val

/-- The `Print` instruction (`VM::print`): pop and record the printed
value (the rendered text is diagnostic output). -/
def print (s : VMState) : Except String VMState := do
  let (value, s) ← s.pop
  .ok { s with output := s.output ++ [value] }

/-- The `Add` instruction (`VM::add`): float addition, string
concatenation with float coercion on either side; any other operand
pair falls through the `match` (`_ => {}`) with both operands already
popped and nothing pushed. -/
def add (s : VMState) : Except String VMState := do
  let (b, s) ← s.pop
  let (a, s) ← s.pop
  match a, b with
  | .float x, .float y => s.push (.float (x + y))
  | .obj ha, .obj hb =>
    let oa ← s.deref ha
    let ob ← s.deref hb
    match oa.as_string, ob.as_string with
    | some sa, some sb =>
      let (h, s) := s.allocate (.string (sa ++ sb))
      s.push (.obj h)
    | _, _ => .error "unwrap on a non-string object"
  | .obj ha, .float y =>
    let oa ← s.deref ha
    match oa.as_string with
    | some sa =>
      let (h, s) := s.allocate (.string (sa ++ floatStr y))
      s.push (.obj h)
    | none => .error "unwrap on a non-string object"
  | .float x, .obj hb =>
    let ob ← s.deref hb
    match ob.as_string with
    | some sb =>
      let (h, s) := s.allocate (.string (floatStr x ++ sb))
      s.push (.obj h)
    | none => .error "unwrap on a non-string object"
  | _, _ => .ok s

/-- The expansion of the `binary_op!` macro (`src/vm/vm.rs:76`): pop
`b` then `a`, and push `(a == b)`.  The macro's operator parameter
`$op` does not occur in its body, so every user of the macro pushes the
raw-value equality of its operands. -/
def binary_op (s : VMState) : Except String VMState := do
  let (b, s) ← s.pop
  let (a, s) ← s.pop
  s.push (Value.ofBool (a = b))

/-- The `Sub` instruction (`VM::sub`, `binary_op!(self, -)`). -/
def sub (s : VMState) : Except String VMState := binary_op s

/-- The `Mul` instruction (`VM::mul`, `binary_op!(self, *)`). -/
def mul (s : VMState) : Except String VMState := binary_op s

/-- The `Rem` instruction (`VM::rem`, `binary_op!(self, %)`). -/
def rem (s : VMState) : Except String VMState := binary_op s

/-- The `Div` instruction (`VM::div`, `binary_op!(self, /)`). -/
def div (s : VMState) : Except String VMState := binary_op s

/-- The `Equal` instruction (`VM::eq`, `binary_op!(self, ==)`). -/
def eq (s : VMState) : Except String VMState := binary_op s

/-- The `Greater` instruction (`VM::gt`, `binary_op!(self, >)`). -/
def gt (s : VMState) : Except String VMState := binary_op s

/-- The `Less` instruction (`VM::lt`, `binary_op!(self, <)`). -/
def lt (s : VMState) : Except String VMState := binary_op s

/-- The `Pow` instruction (`VM::pow`): on two floats pushes `powf`,
otherwise both operands are popped and nothing is pushed. -/
def pow (env : Env) (s : VMState) : Except String VMState := do
  let (b, s) ← s.pop
  let (a, s) ← s.pop
  match a, b with
  | .float x, .float y => s.push (.float (env.powf x y))
  | _, _ => .ok s

/-- The `Neg` instruction (`VM::neg`): on a float pushes its negation,
otherwise the operand is popped and nothing is pushed. -/
def neg (s : VMState) : Except String VMState := do
  let (a, s) ← s.pop
  match a with
  | .float x => s.push (.float (-x))
  | _ => .ok s

/-- The `Not` instruction (`VM::not`). -/
def not (s : VMState) : Except String VMState := do
  let (a, s) ← s.pop
  s.push (if a.truthy then Value.vfalse else Value.vtrue)

/-- The `Jump` instruction (`VM::jmp`): absolute u16 target. -/
def jmp (s : VMState) : Except String VMState := do
  let (ip, s) ← s.readU16
  match s.frames with
  | f :: rest => .ok { s with frames := { f with ip := ip } :: rest }
  | [] => .error "frames to be nonempty"

/-- The `JumpIfFalse` instruction (`VM::jze`): peek (no pop); jump when
not truthy. -/
def jze (s : VMState) : Except String VMState := do
  let (ip, s) ← s.readU16
  let v ← s.peek
  if v.truthy then .ok s
  else
    match s.frames with
    | f :: rest => .ok { s with frames := { f with ip := ip } :: rest }
    | [] => .error "frames to be nonempty"

/-- The `Loop` instruction (`VM::op_loop`): `ip -= u16` after the
operand read advanced `ip` by two. -/
def op_loop (s : VMState) : Except String VMState := do
  let (d, s) ← s.readU16
  match s.frames with
  | f :: rest =>
    if d ≤ f.ip then .ok { s with frames := { f with ip := f.ip - d } :: rest }
    else .error "attempt to subtract with overflow"
  | [] => .error "frames to be nonempty"

/-- The `GetGlobal` instruction (`VM::get_global`): the constant must
be a heap string; an undefined global is a fatal runtime error. -/
def get_global (s : VMState) : Except String VMState := do
  let (v, s) ← s.readConstant
  let global ← s.readString v "GetGlobal requires a string identifier"
  match s.globals.lookup global with
  | some value => s.push value
  | none => .error ("undefined global variable: " ++ global)

/-- The `DefineGlobal` instruction (`VM::define_global`): pop the
bound value, insert it under the constant name, and push it back
(the source comments this re-push as a temporary bugfix for function
definitions). -/
def define_global (s : VMState) : Except String VMState := do
  let (v, s) ← s.readConstant
  let var ← s.readString v "expected constant to be a string value"
  let (lhs, s) ← s.pop
  let s := { s with globals := globalsSet s.globals var lhs }
  s.push lhs

/-- The `SetGlobal` instruction (`VM::set_global`): the constant must
be a heap string; bind the name to the current top of stack (no pop),
updating the slot when the name is defined and inserting it
otherwise. -/
def set_global (s : VMState) : Except String VMState := do
  let (c, s) ← s.readConstant
  let var ← s.readString c "expected constant to be a string value"
  let value ← s.peek
  .ok { s with globals := globalsSet s.globals var value }

/-- The `GetLocal` instruction (`VM::get_local`). -/
def get_local (s : VMState) : Except String VMState := do
  match s.frames with
  | [] => .error "frames to be nonempty"
  | f :: _ =>
    let start := f.stackStart
    let (idx, s) ← s.readByte
    match s.stack.get? (start + idx) with
    | some val => s.push val
    | none => .error "index out of bounds"

/-- The `SetLocal` instruction (`VM::set_local`): peek (no pop) into
the local slot. -/
def set_local (s : VMState) : Except String VMState := do
  let val ← s.peek
  match s.frames with
  | [] => .error "frames to be nonempty"
  | f :: _ =>
    let start := f.stackStart
    let (idx, s) ← s.readByte
    if start + idx < s.stack.length then
      .ok { s with stack := s.stack.set (start + idx) val }
    else .error "index out of bounds"

/-- The `Immediate` instruction (`VM::immediate`). -/
def immediate (s : VMState) : Except String VMState := do
  let (val, s) ← s.readImmediate
  s.push val

/-- The `Nil` instruction (`VM::imm_nil`). -/
def imm_nil (s : VMState) : Except String VMState :=
  s.push Value.nil

/-- The `True` instruction (`VM::imm_true`). -/
def imm_true (s : VMState) : Except String VMState :=
  s.push Value.vtrue

/-- The `False` instruction (`VM::imm_false`). -/
def imm_false (s : VMState) : Except String VMState :=
  s.push Value.vfalse

/-- The `GetUpValue` instruction (`VM::get_upvalue`): a closed cell
yields its value, an open cell reads through to the stack slot. -/
def get_upvalue (s : VMState) : Except String VMState := do
  let (idx, s) ← s.readByte
  let cl ← current_closure s
  match cl.upvalues.get? idx with
  | none => .error "index out of bounds"
  | some cid =>
    let cell ← s.cellGet cid
    let value ← match cell with
      | .ok v => .ok v
      | .error i =>
        match s.stack.get? i with
        | some v => .ok v
        | none => .error "index out of bounds"
    s.push value

/-- The `SetUpValue` instruction (`VM::set_upvalue`): peek (no pop);
`UpValue::set` writes a closed cell and reports `Err(slot)` for an open
cell, in which case the VM writes the stack slot instead. -/
def set_upvalue (s : VMState) : Except String VMState := do
  let value ← s.peek
  let (idx, s) ← s.readByte
  let cl ← current_closure s
  match cl.upvalues.get? idx with
  | none => .error "index out of bounds"
  | some cid =>
    let cell ← s.cellGet cid
    match cell with
    | .error i =>
      if i < s.stack.length then .ok { s with stack := s.stack.set i value }
      else .error "index out of bounds"
    | .ok _ => .ok (s.cellSet cid (.ok value))

/-- The operand-reading loop of the `Closure` instruction: for each of
the function's `upvalue_count` upvalues read the `(is_local, idx)` byte
pair emitted for it and resolve the cell (capture a local, or copy
from the current closure). -/
def closureLoop (count : Nat) (s : VMState) (acc : List Nat) :
    Except String (List Nat × VMState) :=
  match count with
  | 0 => .ok (acc, s)
  | n + 1 => do
    let (bl, s) ← s.readByte
    let is_local := bl > 0
    let (idx, s) ← s.readByte
    if is_local then do
      let (cid, s) ← capture_upvalue s idx
      closureLoop n s (acc ++ [cid])
    else do
      let cl ← current_closure s
      match cl.upvalues.get? idx with
      | some cid => closureLoop n s (acc ++ [cid])
      | none => .error "index out of bounds"

/-- The `Closure` instruction (`VM::closure`): read the constant (a
function) FIRST, then the upvalue pairs, allocate the closure and push
it. -/
def closure (s : VMState) : Except String VMState := do
  let (value, s) ← s.readConstant
  let function ← s.functionOf value
  let (upvalues, s) ← closureLoop function.upvalue_count s []
  let (h, s) := s.allocate (.closure ⟨function, upvalues⟩)
  s.push (.obj h)

/-- Frame-start computation shared by `VM::call` and
`VM::call_closure`: `if last < arity { 0 } else { last - (arity+1) }`,
where the subtraction underflows (a Rust panic) when
`last = arity`. -/
def frameStart (last arity : Nat) : Except String Nat :=
  if last < arity then .ok 0
  else if last < arity + 1 then .error "attempt to subtract with overflow"
  else .ok (last - (arity + 1))

/-- Calling a closure (`VM::call_closure`): arity mismatch is a fatal
runtime error; otherwise push a new frame over the callee slot. -/
def call_closure (handle : Nat) (arity : Nat) (s : VMState) : Except String VMState := do
  let o ← s.deref handle
  let cl ← match o.as_closure with
    | some c => .ok c
    | none => .error "redundant cast to succeed"
  let last := s.stack.length
  let frame_start ← frameStart last arity
  if cl.function.arity ≠ arity then
    .error "arity mismatch"
  else
    .ok { s with frames := { closure := handle, ip := 0, stackStart := frame_start } :: s.frames }

/-- The `Call(arity)` instruction (`VM::call`).  An object callee that
is neither a closure nor a native function is the fatal "bad call";
a NON-object callee does not match the `if let Variant::Obj` and the
instruction falls through, leaving the machine unchanged. -/
def call (env : Env) (arity : Nat) (s : VMState) : Except String VMState := do
  let last := s.stack.length
  let frame_start ← frameStart last arity
  let callee ← s.stackValueAt frame_start
  match callee.as_object with
  | some handle =>
    let value ← s.deref handle
    match value with
    | .closure _ => call_closure handle arity s
    | .nativeFunction native =>
      if native.arity ≠ arity then .error "arity mismatch"
      else
        let result := env.natives native.fid (s.stack.drop frame_start)
        let s := { s with stack := (s.stack.take (frame_start + 1)).dropLast }
        s.push result
    | _ => .error "bad call"
  | none => .ok s

/-- The pop loop of the `List` instruction. -/
def listLoop (count : Nat) (s : VMState) (content : List Value) :
    Except String (List Value × VMState) :=
  match count with
  | 0 => .ok (content, s)
  | n + 1 => do
    let (v, s) ← s.pop
    listLoop n s (content ++ [v])

/-- The `List` instruction (`VM::list`): pop `element_count` values
(top first) into a list object. -/
def list (s : VMState) : Except String VMState := do
  let (element_count, s) ← s.readByte
  let (content, s) ← listLoop element_count s []
  let (h, s) := s.allocate (.list content)
  s.push (.obj h)

/-- Modelled from the spec: `Variant::to_hash` (referenced by
`VM::dict`/`VM::index` but absent from the sources) — the key shapes of
§4.3 Hashing, matching the inline conversion in `VM::set_element`:
float → truncated integer, booleans, string content, nil. -/
def to_hash (s : VMState) : Value → Except String HashVariant
  | .float n => .ok (.int (qTrunc n))
  | .vtrue => .ok (.bool true)
  | .vfalse => .ok (.bool false)
  | .nil => .ok .nil
  | .obj h => do
    let o ← s.deref h
    match o.as_string with
    | some str => .ok (.str str)
    | none => .error "unwrap on a non-string object"

/-- The pop loop of the `Dict` instruction: value, then key, hashed. -/
def dictLoop (count : Nat) (s : VMState) (content : List (HashVariant × Value)) :
    Except String (List (HashVariant × Value) × VMState) :=
  match count with
  | 0 => .ok (content, s)
  | n + 1 => do
    let (value, s) ← s.pop
    let (keyv, s) ← s.pop
    let key ← to_hash s keyv
    dictLoop n s (dictInsert content key value)

/-- The `Dict` instruction (`VM::dict`). -/
def dict (s : VMState) : Except String VMState := do
  let (element_count, s) ← s.readByte
  let (content, s) ← dictLoop element_count s []
  let (h, s) := s.allocate (.dict content)
  s.push (.obj h)

/-- The `SetElement` instruction (`VM::set_element`): pop container,
index and value; mutate a list (float index, truncated) or a dict
(hashed key); any other container object falls through silently. -/
def set_element (s : VMState) : Except String VMState := do
  let (lst, s) ← s.pop
  let (index, s) ← s.pop
  let (value, s) ← s.pop
  let variant ← s.hashVariantOf index
  let handle ← VMState.expectObject lst
  let obj ← s.deref handle
  match obj with
  | .list content =>
    match index with
    | .float n =>
      let idx := (qTrunc n).toNat
      if idx < content.length then
        .ok { s with heap := s.heap.set handle (.list (content.set idx value)) }
      else .error "index out of bounds"
    | _ => .error "Cannot index list with non-number"
  | .dict content =>
    .ok { s with heap := s.heap.set handle (.dict (dictInsert content variant value)) }
  | _ => .ok s

/-- The `GetElement` instruction (dispatched to `VM::index`): pop
container and index; push the list element (float index) or dict value
(hashed key); a missing dict key is fatal; any other container object
falls through with nothing pushed. -/
def index (s : VMState) : Except String VMState := do
  let (lst, s) ← s.pop
  let (idx, s) ← s.pop
  let handle ← VMState.expectObject lst
  let obj ← s.deref handle
  match obj.as_list with
  | some content =>
    match idx with
    | .float n =>
      let i := (qTrunc n).toNat
      match content.get? i with
      | some element => s.push element
      | none => .error "index out of bounds"
    | _ => .error "Cannot index list with non-number"
  | none =>
    match obj.as_dict with
    | some content => do
      let key ← to_hash s idx
      match content.lookup key with
      | some value => s.push value
      | none => .error "no such field on dict"
    | none => .ok s

end VM

/-- The dispatch table (`decode_op!` in `src/vm/chunk.rs`): opcode byte
to handler; `0x17 ..= 0x1f` carry the call arity in the opcode. -/
def decodeOp (env : Env) (inst : Nat) (s : VMState) : Except String VMState :=
  match inst with
  | 0x00 => VM.ret s
  | 0x01 => do
    let (idx, s) ← s.readByte
    VM.constant idx s
  | 0x02 => VM.print s
  | 0x03 => VM.add s
  | 0x04 => VM.sub s
  | 0x05 => VM.mul s
  | 0x06 => VM.div s
  | 0x07 => VM.not s
  | 0x08 => VM.neg s
  | 0x09 => VM.eq s
  | 0x0a => VM.gt s
  | 0x0b => VM.lt s
  | 0x0c => VM.jmp s
  | 0x0d => VM.jze s
  | 0x0e => do
    let (_, s) ← s.pop
    .ok s
  | 0x0f => VM.get_global s
  | 0x10 => VM.set_global s
  | 0x11 => VM.get_local s
  | 0x12 => VM.set_local s
  | 0x13 => VM.immediate s
  | 0x14 => VM.imm_nil s
  | 0x15 => VM.imm_true s
  | 0x16 => VM.imm_false s
  | 0x17 => VM.call env 0 s
  | 0x18 => VM.call env 1 s
  | 0x19 => VM.call env 2 s
  | 0x1a => VM.call env 3 s
  | 0x1b => VM.call env 4 s
  | 0x1c => VM.call env 5 s
  | 0x1d => VM.call env 6 s
  | 0x1e => VM.call env 7 s
  | 0x1f => VM.call env 8 s
  | 0x20 => VM.op_loop s
  | 0x21 => VM.close_upvalue s
  | 0x22 => VM.get_upvalue s
  | 0x23 => VM.set_upvalue s
  | 0x24 => VM.closure s
  | 0x25 => VM.define_global s
  | 0x26 => VM.list s
  | 0x27 => VM.rem s
  | 0x28 => VM.dict s
  | 0x29 => VM.set_element s
  | 0x30 => VM.index s
  | 0x31 => VM.pow env s
  | _ => .error "Unknown op"

/-- One iteration of `VM::run`'s loop body: fetch and dispatch. -/
def step (env : Env) (s : VMState) : Except String VMState := do
  let (inst, s) ← s.readByte
  decodeOp env inst s

/-- Outcome of running the dispatch loop with bounded fuel. -/
inductive RunResult where
  | ok (s : VMState)
  | timeout
  | fatal (msg : String)
deriving DecidableEq, Repr

/-- The dispatch loop `VM::run`: while frames remain, fetch and
dispatch; fuel bounds the number of iterations (the Rust loop has no
bound; `timeout` marks exhaustion, never an outcome of the source). -/
def run (env : Env) : Nat → VMState → RunResult
  | 0, _ => .timeout
  | fuel + 1, s =>
    if s.frames.isEmpty then .ok s
    else
      match step env s with
      | .ok s' => run env fuel s'
      | .error msg => .fatal msg

/-! ## The compiler (`src/compiler/compiler.rs`)

Only the pipeline the statements below exercise is embedded: the
compile-state machinery, literal expressions (the IR constructors of
`src/ir/ir.rs` beyond literals are not needed by any statement and are
omitted), the implicit `Nil`/`Return` epilogue, and the
closure-emission tail of `Compiler::function_decl`. -/

/-- Literal IR subset (`Literal` in `src/ir/ir.rs`). -/
inductive Literal where
  | number (n : ℚ)
  | boolean (b : Bool)
  | nil
deriving DecidableEq, Repr

/-- IR expression subset (`Expr` in `src/ir/ir.rs`). -/
inductive Expr where
  | literal (lit : Literal)
deriving DecidableEq, Repr

/-- Rust `Local` (`src/compiler/compiler.rs`). -/
structure Local where
  name : String
  depth : Nat
  captured : Bool
  reserved : Bool
deriving DecidableEq, Repr

/-- The compiler's `UpValue` record `(index, is_local)`. -/
structure CompilerUpValue where
  index : Nat
  is_local : Bool
deriving DecidableEq, Repr

/-- Rust `FunctionBuilder` (`src/vm/value/object.rs`). -/
structure FunctionBuilder where
  name : String
  chunk : Chunk
  arity : Nat
  upvalue_count : Nat
deriving DecidableEq, Repr

/-- Rust `FunctionBuilder::new`. -/
def FunctionBuilder.new (name : String) (arity : Nat) : FunctionBuilder :=
  { name := name, chunk := Chunk.new name, arity := arity, upvalue_count := 0 }

/-- Rust `FunctionBuilder::build` / `Function::new`. -/
def FunctionBuilder.build (b : FunctionBuilder) : Function :=
  { name := b.name, chunk := b.chunk, arity := b.arity, upvalue_count := b.upvalue_count }

/-- Rust `CompileState` (`src/compiler/compiler.rs`). -/
structure CompileState where
  line : Nat
  locals : List Local
  upvalues : List CompilerUpValue
  function : FunctionBuilder
  scope_depth : Nat
  breaks : List Nat
  method : Bool
deriving DecidableEq, Repr

/-- Rust `CompileState::new`: one reserved slot-0 local. -/
def CompileState.new (method : Bool) (reserved : String) (function : FunctionBuilder)
    (scope_depth : Nat) : CompileState :=
  { line := 0,
    locals := [{ name := reserved, depth := 1, captured := false, reserved := true }],
    upvalues := [],
    function := function,
    scope_depth := scope_depth,
    breaks := [],
    method := method }

/-- Rust `Compiler` (the borrowed heap, the compile-state stack with its
most recently pushed state at the head, and the locals cache). -/
structure Compiler where
  heap : List Object
  states : List CompileState
  locals_cache : List Local
deriving DecidableEq, Repr

namespace Compiler

/-- Rust `Compiler::new`. -/
def new (heap : List Object) : Compiler :=
  { heap := heap, states := [], locals_cache := [] }

/-- Rust `Compiler::start_function`. -/
def start_function (c : Compiler) (method : Bool) (name : String) (arity : Nat)
    (scope : Nat) : Compiler :=
  let next_function := FunctionBuilder.new name arity
  let reserved_var := if method then "self" else ""
  let state := CompileState.new method reserved_var next_function scope
  { c with states := state :: c.states }

/-- Updating the current compile state's chunk (`Compiler::chunk_mut`);
an empty state stack is the source's `expect` panic. -/
def withChunk (c : Compiler) (f : Chunk → Chunk) : Except String Compiler :=
  match c.states with
  | [] => .error "states to be non-empty"
  | st :: rest =>
    .ok { c with states :=
      { st with function := { st.function with chunk := f st.function.chunk } } :: rest }

/-- Rust `Compiler::emit` (the line-table side of `Chunk::write` is
omitted). -/
def emit (c : Compiler) (op : Op) : Except String Compiler :=
  c.withChunk (fun ch => ch.write op)

/-- Rust `Compiler::emit_byte`. -/
def emit_byte (c : Compiler) (b : Nat) : Except String Compiler :=
  c.withChunk (fun ch => ch.write_byte b)

/-- Rust `Compiler::emit_number_literal`: `Immediate` opcode followed by the
raw bits of the float. -/
def emit_number_literal (c : Compiler) (n : ℚ) : Except String Compiler := do
  let c ← c.emit Op.Immediate
  c.withChunk (fun ch => ch.write_u64_value (.float n))

/-- Rust `Compiler::emit_constant` on the literal subset. -/
def emit_constant (c : Compiler) (lit : Literal) : Except String Compiler :=
  match lit with
  | .nil => c.emit Op.Nil
  | .boolean b => c.emit (if b then Op.True else Op.False)
  | .number n => c.emit_number_literal n

/-- Rust `Compiler::compile_expr` on the embedded IR subset. -/
def compile_expr (c : Compiler) (expr : Expr) : Except String Compiler :=
  match expr with
  | .literal lit => c.emit_constant lit

/-- Rust `Compiler::emit_return`: `GetLocal 0` for an `init` method, the
return expression when given, `Nil` otherwise; then `Return`. -/
def emit_return (c : Compiler) (ret : Option Expr) : Except String Compiler := do
  match c.states with
  | [] => .error "states to be non-empty"
  | st :: _ =>
    let initializer := st.function.name = "init" ∧ st.method = true
    let c ← if initializer then do
        let c ← c.emit Op.GetLocal
        c.emit_byte 0
      else
        match ret with
        | some expr => c.compile_expr expr
        | none => c.emit Op.Nil
    c.emit Op.Return

/-- Rust `Compiler::end_function`: pop the state, cache its locals, set the
upvalue count and build the function. -/
def end_function (c : Compiler) : Except String (Function × Compiler) :=
  match c.states with
  | [] => .error "states can't be empty"
  | st :: rest =>
    let c := { c with states := rest, locals_cache := c.locals_cache ++ st.locals }
    let fb := { st.function with upvalue_count := st.upvalues.length }
    .ok (fb.build, c)

/-- Rust `Compiler::compile`: start the top-level `"<zub>"` state (arity 0),
compile each expression, emit the implicit `Nil`/`Return` epilogue and
build. -/
def compile (heap : List Object) (exprs : List Expr) :
    Except String (Function × List Object) := do
  let c := (Compiler.new heap).start_function false "<zub>" 0 0
  let c ← exprs.foldlM compile_expr c
  let c ← c.emit_return none
  let (f, c) ← c.end_function
  .ok (f, c.heap)

/-- The closure-emission tail of `Compiler::function_decl`
(`src/compiler/compiler.rs:527-542`): after the inner function is
built and allocated, the ENCLOSING chunk receives the `Closure`
opcode, then one `(is_local, index)` byte pair per upvalue, and only
then the constant-pool index of the function value. -/
def function_decl_emit (chunk : Chunk) (upvalues : List (Bool × Nat)) (value : Value) :
    Except String Chunk := do
  let chunk := chunk.write Op.Closure
  let chunk := upvalues.foldl (fun ch uv =>
    (ch.write_byte (if uv.1 then 1 else 0)).write_byte uv.2) chunk
  let (chunk, idx) ← chunk.add_constant value
  .ok (chunk.write_byte idx)

end Compiler

/-- Rust `VM::exec`: compile, wrap the top-level function in a closure with
no upvalues, allocate and push it, `call(0)`, then run the dispatch
loop (the disassembler/flamegraph debug paths are omitted). -/
def exec (env : Env) (fuel : Nat) (atoms : List Expr) (s : VMState) : RunResult :=
  match Compiler.compile s.heap atoms with
  | .error msg => .fatal msg
  | .ok (function, heap') =>
    let s := { s with heap := heap' }
    let cl : Closure := { function := function, upvalues := [] }
    let (h, s) := s.allocate (.closure cl)
    match s.push (.obj h) with
    | .error msg => .fatal msg
    | .ok s =>
      match VM.call env 0 s with
      | .error msg => .fatal msg
      | .ok s => run env fuel s

/-! ## The garbage collector (`src/vm/gc/mod.rs`, `src/vm/gc/trace.rs`)

The collector is modelled over an abstract object graph: a finite set
of live handles and a function from a handle to the handles its object
traces.  `VMState.childrenOf` instantiates the graph with the `Trace`
implementations of the VM's object types, and `VMState.gcRoots` builds
the exclusion list `VM::allocate` passes.  The per-object sweep stamps
are modelled by membership in the marked set: a stamp equals the fresh
`new_sweep` exactly when the handle was marked during this collection
(stamps are monotone, so no stale stamp can equal the fresh one). -/

/-- Handles a value traces (`impl Trace<Object> for Value`): an object
handle traces itself, immediates trace nothing. -/
def Value.traceRefs : Value → List Nat
  | .obj h => [h]
  | _ => []

/-- Handles a chunk traces (`impl Trace<Object> for Chunk`): its
constants. -/
def Chunk.traceRefs (c : Chunk) : List Nat :=
  c.constants.flatMap Value.traceRefs

/-- Handles an object traces (`impl Trace` for each object type):
strings and native functions trace nothing; a function traces its
chunk; a closure traces its function and the values of its CLOSED
upvalue cells (`flat_map(|u| u.get())` yields only `Ok` values); a
list traces its elements; a dict traces its values. -/
def Object.traceRefs (cells : List Cell) : Object → List Nat
  | .string _ => []
  | .nativeFunction _ => []
  | .function f => f.chunk.traceRefs
  | .closure cl =>
    cl.function.chunk.traceRefs ++
      cl.upvalues.flatMap (fun cid =>
        match cells.get? cid with
        | some (.ok v) => v.traceRefs
        | _ => [])
  | .list content => content.flatMap Value.traceRefs
  | .dict content => content.flatMap (fun p => p.2.traceRefs)

/-- The mark phase (`Tracer::mark`): depth-first marking.  The source
marks by recursion through `Trace::trace`; it is modelled by the
equivalent worklist traversal, which marks exactly the same set (a
handle is marked and its referents pursued when it is live and not yet
stamped with the current sweep). -/
def gcMark (children : Nat → List Nat) (objects : Finset Nat) :
    List Nat → Finset Nat → Finset Nat
  | [], m => m
  | h :: ws, m =>
    if h ∈ objects ∧ h ∉ m then
      gcMark children objects (children h ++ ws) (insert h m)
    else
      gcMark children objects ws m
termination_by ws m => ((objects \ m).card, ws.length)
decreasing_by
  · apply Prod.Lex.left
    apply Finset.card_lt_card
    constructor
    · intro x hx
      simp only [Finset.mem_sdiff, Finset.mem_insert] at hx ⊢
      exact ⟨hx.1, fun hm => hx.2 (Or.inr hm)⟩
    · intro hsub
      rename_i hcond
      have hh : h ∈ objects \ m := Finset.mem_sdiff.mpr ⟨hcond.1, hcond.2⟩
      have hmem := hsub hh
      rw [Finset.mem_sdiff] at hmem
      exact hmem.2 (Finset.mem_insert_self h m)
  · apply Prod.Lex.right
    simp

/-- Rust `Heap::clean_excluding`: mark from every still-externally-rooted
handle and from the excluded iterator filtered to live handles — for
each root the source calls `tracer.mark` and then traces the root's
referents — then sweep: retain exactly the handles stamped by this
collection. -/
def cleanExcluding (children : Nat → List Nat) (objects : Finset Nat)
    (rootedExternal : List Nat) (excluding : List Nat) : Finset Nat :=
  let roots := rootedExternal ++ excluding.filter (fun h => decide (h ∈ objects))
  let ws := roots.flatMap (fun r => r :: children r)
  let marked := gcMark children objects ws ∅
  objects.filter (fun h => h ∈ marked)

/-- Reachability through object tracing, from a list of mark roots: a
root itself, a referent of a root (the mark phase traces each root's
referents), or a referent of a reachable live object. -/
inductive Reach (children : Nat → List Nat) (objects : Finset Nat)
    (roots : List Nat) : Nat → Prop where
  | root (h : Nat) : h ∈ roots → Reach children objects roots h
  | rootChild (r h : Nat) : r ∈ roots → h ∈ children r →
      Reach children objects roots h
  | step (h h' : Nat) : Reach children objects roots h → h ∈ objects →
      h' ∈ children h → Reach children objects roots h'

/-- The object graph of a VM heap: the handles the object stored at a
handle traces (a handle outside the heap traces nothing). -/
def VMState.childrenOf (s : VMState) (h : Nat) : List Nat :=
  match s.heap.get? h with
  | some o => o.traceRefs s.cells
  | none => []

/-- The live-handle set of a VM heap. -/
def VMState.liveObjects (s : VMState) : Finset Nat :=
  Finset.range s.heap.length

/-- The exclusion roots `VM::allocate` passes to `clean_excluding`, in
the source's chain order: every object on the operand stack, the
handle just allocated, every object in the globals map, and every heap
object held by a CLOSED value in the open-upvalue list
(`u.get().ok()` yields only closed cells). -/
def VMState.gcRoots (s : VMState) (handle : Nat) : List Nat :=
  (s.stack.flatMap (fun v => v.as_object.toList)) ++
    [handle] ++
    (s.globals.flatMap (fun p => p.2.as_object.toList)) ++
    (s.openUpvalues.flatMap (fun cid =>
      match s.cells.get? cid with
      | some (.ok v) => v.as_object.toList
      | _ => []))

/-! ## Concrete machines and states used in the statements -/

/-- A concrete ambient environment for running closed machine states:
no native does anything, `powf` is constantly zero (no statement
evaluated below reaches either). -/
def sampleEnv : Env :=
  { natives := fun _ _ => Value.nil, powf := fun _ _ => 0 }

/-- Final operand stack of a finished run. -/
def RunResult.finalStack : RunResult → Option (List Value)
  | .ok s => some s.stack
  | _ => none

/-- Final frame stack of a finished run. -/
def RunResult.finalFrames : RunResult → Option (List Frame)
  | .ok s => some s.frames
  | _ => none

/-- A function with one upvalue, to be declared by the compiler tail
(`Compiler::function_decl`) and decoded by `VM::closure`. -/
def gFunction : Function :=
  { name := "g", chunk := Chunk.new "g", arity := 0, upvalue_count := 1 }

/-- The enclosing chunk `Compiler::function_decl` produces for a
declaration of `gFunction` capturing one local `(is_local = 1,
index = 0)`, with the function value `obj 1` interned in an empty
pool: `[Closure, 1, 0, 0]` — pairs first, constant byte last. -/
def declChunk : Chunk :=
  { code := [.byte 0x24, .byte 1, .byte 0, .byte 0],
    name := "top", constants := [Value.obj 1] }

/-- A machine about to execute that emitted `Closure` instruction:
the running top-level closure is heap handle 0, the declared function
object is heap handle 1. -/
def declState : VMState :=
  { VMState.new with
    heap := [Object.closure { function := { name := "<zub>", chunk := declChunk,
                                            arity := 0, upvalue_count := 0 },
                              upvalues := [] },
             Object.function gFunction],
    stack := [Value.obj 0],
    frames := [{ closure := 0, ip := 0, stackStart := 0 }] }

/-- A constant pool holding 1024 pairwise distinct constants. -/
def chunk1024 : Chunk :=
  { code := [], name := "big", constants := (List.range 1024).map Value.obj }

/-- A constant pool holding 1028 pairwise distinct constants. -/
def chunk1028 : Chunk :=
  { code := [], name := "bigger", constants := (List.range 1028).map Value.obj }

/-- A chunk whose next code byte names constant 0, the string handle
used by the `SetGlobal` witness. -/
def sgChunk : Chunk :=
  { code := [.byte 0], name := "t", constants := [Value.obj 1] }

/-- The closure executing `sgChunk`. -/
def sgClosure : Closure :=
  { function := { name := "t", chunk := sgChunk, arity := 0, upvalue_count := 0 },
    upvalues := [] }

/-- A machine about to execute the operand of `SetGlobal`: the string
constant names `"x"`, the top of stack is `7`, and `"x"` is not yet
defined in globals. -/
def sgState : VMState :=
  { VMState.new with
    heap := [Object.closure sgClosure, Object.string "x"],
    stack := [Value.float 7],
    frames := [{ closure := 0, ip := 0, stackStart := 0 }] }

/-- A two-object heap for the collection witness: handle 0 (a list
referencing handle 1) sits on the stack; handle 1 is reachable only
through it. -/
def gcState : VMState :=
  { VMState.new with
    heap := [Object.list [Value.obj 1], Object.string "y"],
    stack := [Value.obj 0] }

/-! ## Frame-shape predicates for the run-loop invariant -/

/-- Frames unchanged, or only the current frame's instruction pointer
moved: the shape every non-call, non-return handler leaves behind. -/
def framesIp (s s' : VMState) : Prop :=
  s'.frames = s.frames ∨
    ∃ f rest ip', s.frames = f :: rest ∧ s'.frames = { f with ip := ip' } :: rest

/-- Frames unchanged, the current frame's ip moved, or one frame
pushed on top. -/
def framesOK (s s' : VMState) : Prop :=
  framesIp s s' ∨ ∃ fr, s'.frames = fr :: s.frames

/-- A machine whose bottom frame (if any) starts at stack slot `0`,
as the frame pushed by the top-level `call(0)` of `VM::exec` does. -/
def bottomZero (s : VMState) : Prop :=
  ∀ f, s.frames.getLast? = some f → f.stackStart = 0

/-! ## Statements -/

/-- Reduction of a bind on an `ok`: do-blocks over `Except` step
through their successful prefix. -/
theorem bindOk {ε α β : Type} (a : α) (f : α → Except ε β) :
    ((Except.ok a : Except ε α) >>= f) = f a := rfl

/-- Reduction of a bind on an `error`: a do-block over `Except`
propagates a failure. -/
theorem bindErr {ε α β : Type} (e : ε) (f : α → Except ε β) :
    ((Except.error e : Except ε α) >>= f) = Except.error e := rfl

/-- Popping a stack whose last element is known. -/
theorem pop_concat (s : VMState) (l : List Value) (v : Value) (hs : s.stack = l ++ [v]) :
    VMState.pop s = .ok (v, { s with stack := l }) := by
  unfold VMState.pop
  rw [hs, List.getLast?_concat, List.dropLast_concat]

theorem bind_ok_elim {ε α β : Type} {x : Except ε α} {f : α → Except ε β} {b : β}
    (h : (x >>= f) = .ok b) : ∃ a, x = .ok a ∧ f a = .ok b := by
  cases x with
  | ok a => exact ⟨a, rfl, h⟩
  | error e => cases h

theorem pop_spec {s s' : VMState} {v : Value} (h : VMState.pop s = .ok (v, s')) :
    s' = { s with stack := s.stack.dropLast } ∧ s.stack.getLast? = some v := by
  unfold VMState.pop at h
  split at h
  · cases h
    rename_i heq
    exact ⟨rfl, heq⟩
  · cases h

theorem push_spec {s s' : VMState} {v : Value} (h : VMState.push s v = .ok s') :
    s' = { s with stack := s.stack ++ [v] } := by
  unfold VMState.push at h
  split at h
  · cases h
  · cases h
    rfl

theorem readByte_spec {s s' : VMState} {b : Nat} (h : VMState.readByte s = .ok (b, s')) :
    ∃ f rest, s.frames = f :: rest ∧
      s' = { s with frames := { f with ip := f.ip + 1 } :: rest } := by
  unfold VMState.readByte at h
  split at h
  · cases h
  · rename_i f rest heq
    cases hc : VMState.chunkOf s f with
    | error e => rw [hc] at h; cases h
    | ok chunk =>
      rw [hc] at h
      simp only [bindOk] at h
      split at h
      · cases h
        exact ⟨f, rest, heq, rfl⟩
      · cases h
      · cases h

theorem readU16_spec {s s' : VMState} {b : Nat} (h : VMState.readU16 s = .ok (b, s')) :
    ∃ f rest, s.frames = f :: rest ∧
      s' = { s with frames := { f with ip := f.ip + 2 } :: rest } := by
  unfold VMState.readU16 at h
  split at h
  · cases h
  · rename_i f rest heq
    cases hc : VMState.chunkOf s f with
    | error e => rw [hc] at h; cases h
    | ok chunk =>
      rw [hc] at h
      simp only [bindOk] at h
      split at h
      · cases h
        exact ⟨f, rest, heq, rfl⟩
      · cases h

theorem readImmediate_spec {s s' : VMState} {v : Value}
    (h : VMState.readImmediate s = .ok (v, s')) :
    ∃ f rest, s.frames = f :: rest ∧
      s' = { s with frames := { f with ip := f.ip + 8 } :: rest } := by
  unfold VMState.readImmediate at h
  split at h
  · cases h
  · rename_i f rest heq
    cases hc : VMState.chunkOf s f with
    | error e => rw [hc] at h; cases h
    | ok chunk =>
      rw [hc] at h
      simp only [bindOk] at h
      split at h
      · cases h
        exact ⟨f, rest, heq, rfl⟩
      · cases h

/-- Frames unchanged, or only the current frame's instruction pointer
moved. -/
theorem framesIp_of_eq {s s' : VMState} (h : s'.frames = s.frames) : framesIp s s' :=
  Or.inl h

theorem framesIp_trans {s₁ s₂ s₃ : VMState}
    (h₁ : framesIp s₁ s₂) (h₂ : framesIp s₂ s₃) : framesIp s₁ s₃ := by
  rcases h₁ with h₁ | ⟨f, rest, ip', hf, hf'⟩
  · rcases h₂ with h₂ | ⟨g, grest, ip₂, hg, hg'⟩
    · exact Or.inl (h₂.trans h₁)
    · exact Or.inr ⟨g, grest, ip₂, h₁ ▸ hg, hg'⟩
  · rcases h₂ with h₂ | ⟨g, grest, ip₂, hg, hg'⟩
    · exact Or.inr ⟨f, rest, ip', hf, h₂ ▸ hf'⟩
    · rw [hf'] at hg
      cases hg
      exact Or.inr ⟨f, rest, ip₂, hf, hg'⟩

/-- The stack base of the bottom frame, seen through `framesIp`. -/
theorem framesIp_bottom {s s' : VMState} (h : framesIp s s') :
    s'.frames.getLast?.map Frame.stackStart = s.frames.getLast?.map Frame.stackStart ∧
      (s.frames ≠ [] → s'.frames ≠ []) := by
  rcases h with h | ⟨f, rest, ip', hf, hf'⟩
  · rw [h]
    exact ⟨rfl, fun hne => hne⟩
  · rw [hf, hf']
    constructor
    · cases rest with
      | nil => rfl
      | cons g grest => simp [List.getLast?_cons_cons]
    · intro
      simp

theorem readByte_framesIp {s s' : VMState} {b : Nat}
    (h : VMState.readByte s = .ok (b, s')) :
    framesIp s s' ∧ s'.stack = s.stack ∧ s'.heap = s.heap ∧ s'.cells = s.cells ∧
      s'.openUpvalues = s.openUpvalues := by
  obtain ⟨f, rest, hf, rfl⟩ := readByte_spec h
  exact ⟨Or.inr ⟨f, rest, f.ip + 1, hf, rfl⟩, rfl, rfl, rfl, rfl⟩

theorem readConstant_framesIp {s s' : VMState} {v : Value}
    (h : VMState.readConstant s = .ok (v, s')) :
    framesIp s s' ∧ s'.stack = s.stack ∧ s'.heap = s.heap ∧ s'.cells = s.cells ∧
      s'.openUpvalues = s.openUpvalues := by
  unfold VMState.readConstant at h
  obtain ⟨⟨b, s₁⟩, hrb, h⟩ := bind_ok_elim h
  obtain ⟨hfr, hst, hhp, hcl, hou⟩ := readByte_framesIp hrb
  obtain ⟨w, hw, h⟩ := bind_ok_elim h
  cases h
  exact ⟨hfr, hst, hhp, hcl, hou⟩

theorem framesOK_of_framesIp {s s' : VMState} (h : framesIp s s') : framesOK s s' :=
  Or.inl h

theorem framesOK_bottom {s s' : VMState} (h : framesOK s s') (hne : s.frames ≠ []) :
    s'.frames ≠ [] ∧
      s'.frames.getLast?.map Frame.stackStart = s.frames.getLast?.map Frame.stackStart := by
  rcases h with h | ⟨fr, hfr⟩
  · obtain ⟨hmap, hne'⟩ := framesIp_bottom h
    exact ⟨hne' hne, hmap⟩
  · rw [hfr]
    refine ⟨by simp, ?_⟩
    cases hf : s.frames with
    | nil => exact absurd hf hne
    | cons g grest => rw [List.getLast?_cons_cons]

theorem capture_upvalue_pres {s s' : VMState} {idx cid : Nat}
    (h : VM.capture_upvalue s idx = .ok (cid, s')) :
    s'.frames = s.frames ∧ s'.stack = s.stack := by
  simp only [VM.capture_upvalue] at h
  split at h
  · cases h
  · split at h
    · cases h
      exact ⟨rfl, rfl⟩
    · cases h
      exact ⟨rfl, rfl⟩

theorem close_upvalues_step_pres {e : Nat} {s s' : VMState} {cid : Nat}
    (h : VM.close_upvalues_step e s cid = .ok s') :
    s'.frames = s.frames ∧ s'.stack = s.stack := by
  unfold VM.close_upvalues_step at h
  obtain ⟨cell, hcell, h⟩ := bind_ok_elim h
  split at h
  · cases h
    exact ⟨rfl, rfl⟩
  · split at h
    · split at h
      · cases h
        exact ⟨rfl, rfl⟩
      · cases h
    · cases h
      exact ⟨rfl, rfl⟩

theorem close_upvalues_fold_pres {e : Nat} :
    ∀ (l : List Nat) (s s' : VMState),
      l.foldlM (VM.close_upvalues_step e) s = .ok s' →
      s'.frames = s.frames ∧ s'.stack = s.stack := by
  intro l
  induction l with
  | nil =>
    intro s s' h
    cases h
    exact ⟨rfl, rfl⟩
  | cons x xs ih =>
    intro s s' h
    rw [List.foldlM_cons] at h
    obtain ⟨s₁, hx, hrest⟩ := bind_ok_elim h
    obtain ⟨hf₁, hs₁⟩ := close_upvalues_step_pres hx
    obtain ⟨hf₂, hs₂⟩ := ih s₁ s' hrest
    exact ⟨hf₂.trans hf₁, hs₂.trans hs₁⟩

theorem close_upvalues_pres {s s' : VMState} {e : Nat}
    (h : VM.close_upvalues s e = .ok s') :
    s'.frames = s.frames ∧ s'.stack = s.stack := by
  unfold VM.close_upvalues at h
  obtain ⟨h₁, h₂⟩ := close_upvalues_fold_pres s.openUpvalues _ s' h
  exact ⟨h₁, h₂⟩

theorem binary_op_frames {s s' : VMState} (h : VM.binary_op s = .ok s') :
    s'.frames = s.frames := by
  unfold VM.binary_op at h
  obtain ⟨⟨b, s₁⟩, h₁, h⟩ := bind_ok_elim h
  obtain ⟨rfl, -⟩ := pop_spec h₁
  obtain ⟨⟨a, s₂⟩, h₂, h⟩ := bind_ok_elim h
  obtain ⟨rfl, -⟩ := pop_spec h₂
  rw [push_spec h]

theorem print_frames {s s' : VMState} (h : VM.print s = .ok s') :
    s'.frames = s.frames := by
  unfold VM.print at h
  obtain ⟨⟨v, s₁⟩, h₁, h⟩ := bind_ok_elim h
  obtain ⟨rfl, -⟩ := pop_spec h₁
  cases h
  rfl

theorem add_frames {s s' : VMState} (h : VM.add s = .ok s') :
    s'.frames = s.frames := by
  unfold VM.add at h
  obtain ⟨⟨b, s₁⟩, h₁, h⟩ := bind_ok_elim h
  obtain ⟨rfl, -⟩ := pop_spec h₁
  obtain ⟨⟨a, s₂⟩, h₂, h⟩ := bind_ok_elim h
  obtain ⟨rfl, -⟩ := pop_spec h₂
  cases a with
  | float x =>
    cases b with
    | float y =>
      rw [push_spec h]
    | obj hb =>
      obtain ⟨ob, hob, h⟩ := bind_ok_elim h
      cases ob <;> first | (rw [push_spec h]; try rfl) | cases h
    | vtrue => cases h; rfl
    | vfalse => cases h; rfl
    | nil => cases h; rfl
  | obj ha =>
    cases b with
    | float y =>
      obtain ⟨oa, hoa, h⟩ := bind_ok_elim h
      cases oa <;> first | (rw [push_spec h]; try rfl) | cases h
    | obj hb =>
      obtain ⟨oa, hoa, h⟩ := bind_ok_elim h
      obtain ⟨ob, hob, h⟩ := bind_ok_elim h
      cases oa <;> cases ob <;> first | (rw [push_spec h]; try rfl) | cases h
    | vtrue => cases h; rfl
    | vfalse => cases h; rfl
    | nil => cases h; rfl
  | vtrue => cases b <;> (cases h; rfl)
  | vfalse => cases b <;> (cases h; rfl)
  | nil => cases b <;> (cases h; rfl)

theorem pow_frames {env : Env} {s s' : VMState} (h : VM.pow env s = .ok s') :
    s'.frames = s.frames := by
  unfold VM.pow at h
  obtain ⟨⟨b, s₁⟩, h₁, h⟩ := bind_ok_elim h
  obtain ⟨rfl, -⟩ := pop_spec h₁
  obtain ⟨⟨a, s₂⟩, h₂, h⟩ := bind_ok_elim h
  obtain ⟨rfl, -⟩ := pop_spec h₂
  cases a <;> cases b <;> first | (rw [push_spec h]; try rfl) | (cases h; rfl)

theorem neg_frames {s s' : VMState} (h : VM.neg s = .ok s') :
    s'.frames = s.frames := by
  unfold VM.neg at h
  obtain ⟨⟨a, s₁⟩, h₁, h⟩ := bind_ok_elim h
  obtain ⟨rfl, -⟩ := pop_spec h₁
  cases a <;> first | (rw [push_spec h]; try rfl) | (cases h; rfl)

theorem not_frames {s s' : VMState} (h : VM.not s = .ok s') :
    s'.frames = s.frames := by
  unfold VM.not at h
  obtain ⟨⟨a, s₁⟩, h₁, h⟩ := bind_ok_elim h
  obtain ⟨rfl, -⟩ := pop_spec h₁
  rw [push_spec h]

theorem constant_frames {idx : Nat} {s s' : VMState} (h : VM.constant idx s = .ok s') :
    s'.frames = s.frames := by
  unfold VM.constant at h
  obtain ⟨v, hv, h⟩ := bind_ok_elim h
  rw [push_spec h]

theorem close_upvalue_frames {s s' : VMState} (h : VM.close_upvalue s = .ok s') :
    s'.frames = s.frames := by
  unfold VM.close_upvalue at h
  split at h
  · cases h
  · obtain ⟨s₁, h₁, h⟩ := bind_ok_elim h
    obtain ⟨hf₁, -⟩ := close_upvalues_pres h₁
    obtain ⟨⟨v, s₂⟩, h₂, h⟩ := bind_ok_elim h
    obtain ⟨rfl, -⟩ := pop_spec h₂
    cases h
    exact hf₁

theorem set_element_frames {s s' : VMState} (h : VM.set_element s = .ok s') :
    s'.frames = s.frames := by
  unfold VM.set_element at h
  obtain ⟨⟨lst, s₁⟩, h₁, h⟩ := bind_ok_elim h
  obtain ⟨rfl, -⟩ := pop_spec h₁
  obtain ⟨⟨idxv, s₂⟩, h₂, h⟩ := bind_ok_elim h
  obtain ⟨rfl, -⟩ := pop_spec h₂
  obtain ⟨⟨val, s₃⟩, h₃, h⟩ := bind_ok_elim h
  obtain ⟨rfl, -⟩ := pop_spec h₃
  obtain ⟨variant, hv, h⟩ := bind_ok_elim h
  obtain ⟨handle, hh, h⟩ := bind_ok_elim h
  obtain ⟨obj, ho, h⟩ := bind_ok_elim h
  cases obj with
  | list content =>
    cases idxv with
    | float n =>
      dsimp only at h
      split at h
      · cases h; rfl
      · cases h
    | vtrue => cases h
    | vfalse => cases h
    | nil => cases h
    | obj hi => cases h
  | dict content => cases h; rfl
  | string str => cases h; rfl
  | function f => cases h; rfl
  | nativeFunction nf => cases h; rfl
  | closure c => cases h; rfl

theorem index_frames {s s' : VMState} (h : VM.index s = .ok s') :
    s'.frames = s.frames := by
  unfold VM.index at h
  obtain ⟨⟨lst, s₁⟩, h₁, h⟩ := bind_ok_elim h
  obtain ⟨rfl, -⟩ := pop_spec h₁
  obtain ⟨⟨idxv, s₂⟩, h₂, h⟩ := bind_ok_elim h
  obtain ⟨rfl, -⟩ := pop_spec h₂
  obtain ⟨handle, hh, h⟩ := bind_ok_elim h
  obtain ⟨obj, ho, h⟩ := bind_ok_elim h
  cases obj with
  | list content =>
    simp only [Object.as_list] at h
    cases idxv with
    | float n =>
      dsimp only at h
      split at h
      · rw [push_spec h]
        try rfl
      · cases h
    | vtrue => cases h
    | vfalse => cases h
    | nil => cases h
    | obj hi => cases h
  | dict content =>
    simp only [Object.as_list, Object.as_dict] at h
    obtain ⟨key, hk, h⟩ := bind_ok_elim h
    split at h
    · rw [push_spec h]
      try rfl
    · cases h
  | string str =>
    simp only [Object.as_list, Object.as_dict] at h
    cases h
    rfl
  | function f =>
    simp only [Object.as_list, Object.as_dict] at h
    cases h
    rfl
  | nativeFunction nf =>
    simp only [Object.as_list, Object.as_dict] at h
    cases h
    rfl
  | closure c =>
    simp only [Object.as_list, Object.as_dict] at h
    cases h
    rfl

theorem push_frames {s s' : VMState} {v : Value} (h : VMState.push s v = .ok s') :
    s'.frames = s.frames := by
  rw [push_spec h]

theorem get_global_framesIp {s s' : VMState} (h : VM.get_global s = .ok s') :
    framesIp s s' := by
  unfold VM.get_global at h
  obtain ⟨⟨v, s₁⟩, h₁, h⟩ := bind_ok_elim h
  obtain ⟨hfr, -, -, -, -⟩ := readConstant_framesIp h₁
  obtain ⟨g, hg, h⟩ := bind_ok_elim h
  split at h
  · exact framesIp_trans hfr (framesIp_of_eq (push_frames h))
  · cases h

theorem set_global_framesIp {s s' : VMState} (h : VM.set_global s = .ok s') :
    framesIp s s' := by
  unfold VM.set_global at h
  obtain ⟨⟨v, s₁⟩, h₁, h⟩ := bind_ok_elim h
  obtain ⟨hfr, -, -, -, -⟩ := readConstant_framesIp h₁
  obtain ⟨g, hg, h⟩ := bind_ok_elim h
  obtain ⟨w, hw, h⟩ := bind_ok_elim h
  cases h
  exact framesIp_trans hfr (framesIp_of_eq rfl)

theorem define_global_framesIp {s s' : VMState} (h : VM.define_global s = .ok s') :
    framesIp s s' := by
  unfold VM.define_global at h
  obtain ⟨⟨v, s₁⟩, h₁, h⟩ := bind_ok_elim h
  obtain ⟨hfr, -, -, -, -⟩ := readConstant_framesIp h₁
  obtain ⟨g, hg, h⟩ := bind_ok_elim h
  obtain ⟨⟨lhs, s₂⟩, h₂, h⟩ := bind_ok_elim h
  obtain ⟨rfl, -⟩ := pop_spec h₂
  dsimp only at h
  have hp := push_frames h
  exact framesIp_trans hfr (framesIp_of_eq hp)

theorem get_local_framesIp {s s' : VMState} (h : VM.get_local s = .ok s') :
    framesIp s s' := by
  unfold VM.get_local at h
  split at h
  · cases h
  · obtain ⟨⟨idx, s₁⟩, h₁, h⟩ := bind_ok_elim h
    obtain ⟨hfr, -, -, -, -⟩ := readByte_framesIp h₁
    dsimp only at h
    split at h
    · exact framesIp_trans hfr (framesIp_of_eq (push_frames h))
    · cases h

theorem set_local_framesIp {s s' : VMState} (h : VM.set_local s = .ok s') :
    framesIp s s' := by
  unfold VM.set_local at h
  obtain ⟨v, hv, h⟩ := bind_ok_elim h
  split at h
  · cases h
  · obtain ⟨⟨idx, s₁⟩, h₁, h⟩ := bind_ok_elim h
    obtain ⟨hfr, -, -, -, -⟩ := readByte_framesIp h₁
    dsimp only at h
    split at h
    · cases h
      exact framesIp_trans hfr (framesIp_of_eq rfl)
    · cases h

theorem immediate_framesIp {s s' : VMState} (h : VM.immediate s = .ok s') :
    framesIp s s' := by
  unfold VM.immediate at h
  obtain ⟨⟨v, s₁⟩, h₁, h⟩ := bind_ok_elim h
  obtain ⟨f, rest, hf, rfl⟩ := readImmediate_spec h₁
  exact framesIp_trans (Or.inr ⟨f, rest, f.ip + 8, hf, rfl⟩)
    (framesIp_of_eq (push_frames h))

theorem jmp_framesIp {s s' : VMState} (h : VM.jmp s = .ok s') :
    framesIp s s' := by
  unfold VM.jmp at h
  obtain ⟨⟨tgt, s₁⟩, h₁, h⟩ := bind_ok_elim h
  obtain ⟨f, rest, hf, rfl⟩ := readU16_spec h₁
  cases h
  exact Or.inr ⟨f, rest, tgt, hf, rfl⟩

theorem jze_framesIp {s s' : VMState} (h : VM.jze s = .ok s') :
    framesIp s s' := by
  unfold VM.jze at h
  obtain ⟨⟨tgt, s₁⟩, h₁, h⟩ := bind_ok_elim h
  obtain ⟨f, rest, hf, rfl⟩ := readU16_spec h₁
  obtain ⟨v, hv, h⟩ := bind_ok_elim h
  split at h
  · cases h
    exact Or.inr ⟨f, rest, f.ip + 2, hf, rfl⟩
  · cases h
    exact Or.inr ⟨f, rest, tgt, hf, rfl⟩

theorem op_loop_framesIp {s s' : VMState} (h : VM.op_loop s = .ok s') :
    framesIp s s' := by
  unfold VM.op_loop at h
  obtain ⟨⟨d, s₁⟩, h₁, h⟩ := bind_ok_elim h
  obtain ⟨f, rest, hf, rfl⟩ := readU16_spec h₁
  dsimp only at h
  split at h
  · cases h
    exact Or.inr ⟨f, rest, f.ip + 2 - d, hf, rfl⟩
  · cases h

theorem get_upvalue_framesIp {s s' : VMState} (h : VM.get_upvalue s = .ok s') :
    framesIp s s' := by
  unfold VM.get_upvalue at h
  obtain ⟨⟨idx, s₁⟩, h₁, h⟩ := bind_ok_elim h
  obtain ⟨hfr, -, -, -, -⟩ := readByte_framesIp h₁
  obtain ⟨cl, hcl, h⟩ := bind_ok_elim h
  split at h
  · cases h
  · obtain ⟨cell, hc, h⟩ := bind_ok_elim h
    split at h
    · obtain ⟨y, hy, h⟩ := bind_ok_elim h
      exact framesIp_trans hfr (framesIp_of_eq (push_frames h))
    · split at h
      · obtain ⟨y, hy, h⟩ := bind_ok_elim h
        exact framesIp_trans hfr (framesIp_of_eq (push_frames h))
      · obtain ⟨y, hy, h⟩ := bind_ok_elim h
        cases hy

theorem set_upvalue_framesIp {s s' : VMState} (h : VM.set_upvalue s = .ok s') :
    framesIp s s' := by
  unfold VM.set_upvalue at h
  obtain ⟨v, hv, h⟩ := bind_ok_elim h
  obtain ⟨⟨idx, s₁⟩, h₁, h⟩ := bind_ok_elim h
  obtain ⟨hfr, -, -, -, -⟩ := readByte_framesIp h₁
  obtain ⟨cl, hcl, h⟩ := bind_ok_elim h
  split at h
  · cases h
  · obtain ⟨cell, hc, h⟩ := bind_ok_elim h
    split at h
    · split at h
      · cases h
        exact framesIp_trans hfr (framesIp_of_eq rfl)
      · cases h
    · cases h
      exact framesIp_trans hfr (framesIp_of_eq rfl)

theorem closureLoop_framesIp {count : Nat} :
    ∀ {acc : List Nat} {s : VMState} {acc' : List Nat} {s' : VMState},
      VM.closureLoop count s acc = .ok (acc', s') → framesIp s s' := by
  induction count with
  | zero =>
    intro acc s acc' s' h
    cases h
    exact framesIp_of_eq rfl
  | succ n ih =>
    intro acc s acc' s' h
    unfold VM.closureLoop at h
    obtain ⟨⟨bl, s₁⟩, h₁, h⟩ := bind_ok_elim h
    obtain ⟨hfr₁, -, -, -, -⟩ := readByte_framesIp h₁
    obtain ⟨⟨idx, s₂⟩, h₂, h⟩ := bind_ok_elim h
    obtain ⟨hfr₂, -, -, -, -⟩ := readByte_framesIp h₂
    dsimp only at h
    split at h
    · obtain ⟨⟨cid, s₃⟩, h₃, h⟩ := bind_ok_elim h
      obtain ⟨hf₃, -⟩ := capture_upvalue_pres h₃
      exact framesIp_trans hfr₁ (framesIp_trans hfr₂
        (framesIp_trans (framesIp_of_eq hf₃) (ih h)))
    · obtain ⟨cl, hcl, h⟩ := bind_ok_elim h
      split at h
      · exact framesIp_trans hfr₁ (framesIp_trans hfr₂ (ih h))
      · cases h

theorem closure_framesIp {s s' : VMState} (h : VM.closure s = .ok s') :
    framesIp s s' := by
  unfold VM.closure at h
  obtain ⟨⟨value, s₁⟩, h₁, h⟩ := bind_ok_elim h
  obtain ⟨hfr₁, -, -, -, -⟩ := readConstant_framesIp h₁
  obtain ⟨fn, hfn, h⟩ := bind_ok_elim h
  obtain ⟨⟨ups, s₂⟩, h₂, h⟩ := bind_ok_elim h
  have hfr₂ := closureLoop_framesIp h₂
  dsimp only [VMState.allocate] at h
  have hp := push_frames h
  exact framesIp_trans hfr₁ (framesIp_trans hfr₂ (framesIp_of_eq hp))

theorem listLoop_frames {count : Nat} :
    ∀ {content : List Value} {s : VMState} {content' : List Value} {s' : VMState},
      VM.listLoop count s content = .ok (content', s') → s'.frames = s.frames := by
  induction count with
  | zero =>
    intro content s content' s' h
    cases h
    rfl
  | succ n ih =>
    intro content s content' s' h
    unfold VM.listLoop at h
    obtain ⟨⟨v, s₁⟩, h₁, h⟩ := bind_ok_elim h
    obtain ⟨rfl, -⟩ := pop_spec h₁
    dsimp only at h
    exact (ih h).trans rfl

theorem list_framesIp {s s' : VMState} (h : VM.list s = .ok s') :
    framesIp s s' := by
  unfold VM.list at h
  obtain ⟨⟨cnt, s₁⟩, h₁, h⟩ := bind_ok_elim h
  obtain ⟨hfr₁, -, -, -, -⟩ := readByte_framesIp h₁
  obtain ⟨⟨content, s₂⟩, h₂, h⟩ := bind_ok_elim h
  have hfr₂ := listLoop_frames h₂
  dsimp only [VMState.allocate] at h
  have hp := push_frames h
  exact framesIp_trans hfr₁
    (framesIp_trans (framesIp_of_eq hfr₂) (framesIp_of_eq hp))

theorem dictLoop_frames {count : Nat} :
    ∀ {content : List (HashVariant × Value)} {s : VMState}
      {content' : List (HashVariant × Value)} {s' : VMState},
      VM.dictLoop count s content = .ok (content', s') → s'.frames = s.frames := by
  induction count with
  | zero =>
    intro content s content' s' h
    cases h
    rfl
  | succ n ih =>
    intro content s content' s' h
    unfold VM.dictLoop at h
    obtain ⟨⟨v, s₁⟩, h₁, h⟩ := bind_ok_elim h
    obtain ⟨rfl, -⟩ := pop_spec h₁
    dsimp only at h
    obtain ⟨⟨k, s₂⟩, h₂, h⟩ := bind_ok_elim h
    obtain ⟨rfl, -⟩ := pop_spec h₂
    dsimp only at h
    obtain ⟨key, hk, h⟩ := bind_ok_elim h
    exact (ih h).trans rfl

theorem dict_framesIp {s s' : VMState} (h : VM.dict s = .ok s') :
    framesIp s s' := by
  unfold VM.dict at h
  obtain ⟨⟨cnt, s₁⟩, h₁, h⟩ := bind_ok_elim h
  obtain ⟨hfr₁, -, -, -, -⟩ := readByte_framesIp h₁
  obtain ⟨⟨content, s₂⟩, h₂, h⟩ := bind_ok_elim h
  have hfr₂ := dictLoop_frames h₂
  dsimp only [VMState.allocate] at h
  have hp := push_frames h
  exact framesIp_trans hfr₁
    (framesIp_trans (framesIp_of_eq hfr₂) (framesIp_of_eq hp))

theorem call_closure_frames {handle arity : Nat} {s s' : VMState}
    (h : VM.call_closure handle arity s = .ok s') :
    ∃ fr, s'.frames = fr :: s.frames := by
  unfold VM.call_closure at h
  obtain ⟨o, ho, h⟩ := bind_ok_elim h
  dsimp only at h
  split at h
  · obtain ⟨cl, hcl, h⟩ := bind_ok_elim h
    obtain ⟨fs, hfs, h⟩ := bind_ok_elim h
    split at h
    · cases h
    · cases h
      exact ⟨_, rfl⟩
  · obtain ⟨cl, hcl, h⟩ := bind_ok_elim h
    cases hcl

theorem call_framesOK {env : Env} {arity : Nat} {s s' : VMState}
    (h : VM.call env arity s = .ok s') : framesOK s s' := by
  unfold VM.call at h
  obtain ⟨fs, hfs, h⟩ := bind_ok_elim h
  obtain ⟨callee, hcv, h⟩ := bind_ok_elim h
  split at h
  · obtain ⟨value, hv, h⟩ := bind_ok_elim h
    split at h
    · obtain ⟨fr, hfr⟩ := call_closure_frames h
      exact Or.inr ⟨fr, hfr⟩
    · split at h
      · cases h
      · have hp := push_frames h
        exact framesOK_of_framesIp (framesIp_of_eq hp)
    · cases h
  · cases h
    exact framesOK_of_framesIp (framesIp_of_eq rfl)

theorem ret_spec {s s' : VMState} (h : VM.ret s = .ok s') :
    ∃ (f : Frame) (rest : List Frame) (rv : Value) (stk : List Value),
      s.frames = f :: rest ∧ s'.frames = rest ∧
      s'.stack = stk.take f.stackStart ++ [rv] := by
  unfold VM.ret at h
  split at h
  · rename_i f rest heq
    obtain ⟨⟨rv, s₁⟩, h₁, h⟩ := bind_ok_elim h
    obtain ⟨rfl, -⟩ := pop_spec h₁
    dsimp only at h
    split at h
    · obtain ⟨s₂, h₂, h⟩ := bind_ok_elim h
      obtain ⟨hf₂, hs₂⟩ := close_upvalues_pres h₂
      have hp := push_spec h
      refine ⟨f, rest, rv, s₂.stack, heq, ?_, ?_⟩
      · simp [hp, hf₂]
      · simp [hp]
    · have hp := push_spec h
      refine ⟨f, rest, rv, s.stack.dropLast, heq, ?_, ?_⟩
      · simp [hp]
      · simp [hp]
  · cases h

theorem bottomZero_of_map_eq {s s' : VMState} (hb : bottomZero s)
    (hmap : s'.frames.getLast?.map Frame.stackStart =
      s.frames.getLast?.map Frame.stackStart) :
    bottomZero s' := by
  intro f hf
  rw [hf] at hmap
  cases hg : s.frames.getLast? with
  | none =>
    rw [hg] at hmap
    simp at hmap
  | some g =>
    rw [hg] at hmap
    simp at hmap
    rw [hmap]
    exact hb g hg

theorem stepPost_of_framesIp {s s' : VMState} (hb : bottomZero s)
    (hne : s.frames ≠ []) (hfr : framesIp s s') :
    bottomZero s' ∧ (s'.frames = [] → ∃ v, s'.stack = [v]) := by
  obtain ⟨hmap, hne'⟩ := framesIp_bottom hfr
  exact ⟨bottomZero_of_map_eq hb hmap, fun he => absurd he (hne' hne)⟩

theorem stepPost_of_eq {s s' : VMState} (hb : bottomZero s)
    (hne : s.frames ≠ []) (he : s'.frames = s.frames) :
    bottomZero s' ∧ (s'.frames = [] → ∃ v, s'.stack = [v]) :=
  stepPost_of_framesIp hb hne (framesIp_of_eq he)

theorem stepPost_of_framesOK {s s' : VMState} (hb : bottomZero s)
    (hne : s.frames ≠ []) (hfr : framesOK s s') :
    bottomZero s' ∧ (s'.frames = [] → ∃ v, s'.stack = [v]) := by
  obtain ⟨hne', hmap⟩ := framesOK_bottom hfr hne
  exact ⟨bottomZero_of_map_eq hb hmap, fun he => absurd he hne'⟩

theorem call_closure_start {handle arity : Nat} {s s' : VMState}
    (h : VM.call_closure handle arity s = .ok s') :
    ∃ fs, VM.frameStart s.stack.length arity = .ok fs ∧
      s'.frames = { closure := handle, ip := 0, stackStart := fs } :: s.frames ∧
      s'.stack = s.stack := by
  unfold VM.call_closure at h
  obtain ⟨o, ho, h⟩ := bind_ok_elim h
  dsimp only at h
  split at h
  · obtain ⟨cl, hcl, h⟩ := bind_ok_elim h
    obtain ⟨fs, hfs, h⟩ := bind_ok_elim h
    split at h
    · cases h
    · cases h
      exact ⟨fs, hfs, rfl, rfl⟩
  · obtain ⟨cl, hcl, h⟩ := bind_ok_elim h
    cases hcl

theorem call0_init {env : Env} {s s' : VMState} (hfr : s.frames = [])
    (hstk : ∃ c, s.stack = [c]) (h : VM.call env 0 s = .ok s') :
    bottomZero s' ∧ (s'.frames = [] → ∃ v, s'.stack = [v]) := by
  obtain ⟨c, hc⟩ := hstk
  unfold VM.call at h
  obtain ⟨fs, hfs, h⟩ := bind_ok_elim h
  have hfs0 : fs = 0 := by
    rw [hc] at hfs
    simp [VM.frameStart] at hfs
    omega
  subst hfs0
  obtain ⟨callee, hcv, h⟩ := bind_ok_elim h
  unfold VMState.stackValueAt at hcv
  rw [hc] at hcv
  cases hcv
  split at h
  · rename_i handle hobj
    obtain ⟨value, hval, h⟩ := bind_ok_elim h
    split at h
    · obtain ⟨fs', hfs', hfr', hstk'⟩ := call_closure_start h
      have hfs0' : fs' = 0 := by
        rw [hc] at hfs'
        simp [VM.frameStart] at hfs'
        omega
      subst hfs0'
      constructor
      · intro g hg
        rw [hfr', hfr] at hg
        simp at hg
        subst hg
        rfl
      · intro he
        rw [hfr', hfr] at he
        cases he
    · split at h
      · cases h
      · have hp := push_spec h
        constructor
        · intro g hg
          rw [hp] at hg
          simp [hfr] at hg
        · intro _
          rw [hp]
          simp [hc]
    · cases h
  · cases h
    refine ⟨?_, fun _ => ⟨c, hc⟩⟩
    intro g hg
    rw [hfr] at hg
    cases hg


theorem stepPost_of_ret {s s' : VMState} (hb : bottomZero s)
    (h : VM.ret s = .ok s') :
    bottomZero s' ∧ (s'.frames = [] → ∃ v, s'.stack = [v]) := by
  obtain ⟨f, rest, rv, stk, hfq, hfr', hstk'⟩ := ret_spec h
  refine ⟨?_, ?_⟩
  · intro g hg
    rw [hfr'] at hg
    apply hb g
    rw [hfq]
    cases rest with
    | nil => cases hg
    | cons r rs =>
      rw [List.getLast?_cons_cons]
      exact hg
  · intro he
    rw [hfr'] at he
    subst he
    have hf0 : f.stackStart = 0 := hb f (by rw [hfq]; simp)
    exact ⟨rv, by rw [hstk', hf0]; simp⟩

theorem constant_fetch_framesIp {s s' : VMState}
    (h : (do
        let (idx, s₂) ← s.readByte
        VM.constant idx s₂) = .ok s') : framesIp s s' := by
  obtain ⟨⟨idx, s₁⟩, h₁, h⟩ := bind_ok_elim h
  obtain ⟨hfr₁, -, -, -, -⟩ := readByte_framesIp h₁
  dsimp only at h
  exact framesIp_trans hfr₁ (framesIp_of_eq (constant_frames h))

theorem pop_op_frames {s s' : VMState}
    (h : (do
        let (_, s₂) ← s.pop
        Except.ok s₂) = .ok s') : s'.frames = s.frames := by
  obtain ⟨⟨v, s₁⟩, h₁, h⟩ := bind_ok_elim h
  obtain ⟨rfl, -⟩ := pop_spec h₁
  dsimp only at h
  cases h
  rfl

set_option maxHeartbeats 1000000 in
theorem step_post {env : Env} {s s' : VMState} (hb : bottomZero s)
    (hne : s.frames ≠ []) (h : step env s = .ok s') :
    bottomZero s' ∧ (s'.frames = [] → ∃ v, s'.stack = [v]) := by
  unfold step at h
  obtain ⟨⟨inst, s₁⟩, h₁, h⟩ := bind_ok_elim h
  obtain ⟨hfr₁, -, -, -, -⟩ := readByte_framesIp h₁
  obtain ⟨hmap₁, hne₁'⟩ := framesIp_bottom hfr₁
  have hb₁ : bottomZero s₁ := bottomZero_of_map_eq hb hmap₁
  have hne₁ : s₁.frames ≠ [] := hne₁' hne
  dsimp only at h
  unfold decodeOp at h
  split at h <;>
    first
    | exact stepPost_of_ret hb₁ h
    | exact stepPost_of_eq hb₁ hne₁ (binary_op_frames h)
    | exact stepPost_of_eq hb₁ hne₁ (print_frames h)
    | exact stepPost_of_eq hb₁ hne₁ (add_frames h)
    | exact stepPost_of_eq hb₁ hne₁ (pow_frames h)
    | exact stepPost_of_eq hb₁ hne₁ (neg_frames h)
    | exact stepPost_of_eq hb₁ hne₁ (not_frames h)
    | exact stepPost_of_eq hb₁ hne₁ (close_upvalue_frames h)
    | exact stepPost_of_eq hb₁ hne₁ (set_element_frames h)
    | exact stepPost_of_eq hb₁ hne₁ (index_frames h)
    | exact stepPost_of_eq hb₁ hne₁ (push_frames h)
    | exact stepPost_of_eq hb₁ hne₁ (pop_op_frames h)
    | exact stepPost_of_framesIp hb₁ hne₁ (constant_fetch_framesIp h)
    | exact stepPost_of_framesIp hb₁ hne₁ (jmp_framesIp h)
    | exact stepPost_of_framesIp hb₁ hne₁ (jze_framesIp h)
    | exact stepPost_of_framesIp hb₁ hne₁ (op_loop_framesIp h)
    | exact stepPost_of_framesIp hb₁ hne₁ (get_global_framesIp h)
    | exact stepPost_of_framesIp hb₁ hne₁ (set_global_framesIp h)
    | exact stepPost_of_framesIp hb₁ hne₁ (define_global_framesIp h)
    | exact stepPost_of_framesIp hb₁ hne₁ (get_local_framesIp h)
    | exact stepPost_of_framesIp hb₁ hne₁ (set_local_framesIp h)
    | exact stepPost_of_framesIp hb₁ hne₁ (immediate_framesIp h)
    | exact stepPost_of_framesIp hb₁ hne₁ (get_upvalue_framesIp h)
    | exact stepPost_of_framesIp hb₁ hne₁ (set_upvalue_framesIp h)
    | exact stepPost_of_framesIp hb₁ hne₁ (closure_framesIp h)
    | exact stepPost_of_framesIp hb₁ hne₁ (list_framesIp h)
    | exact stepPost_of_framesIp hb₁ hne₁ (dict_framesIp h)
    | exact stepPost_of_framesOK hb₁ hne₁ (call_framesOK h)
    | cases h

theorem run_post {env : Env} : ∀ {fuel : Nat} {s out : VMState},
    bottomZero s → (s.frames = [] → ∃ v, s.stack = [v]) →
    run env fuel s = .ok out → out.frames = [] ∧ ∃ v, out.stack = [v] := by
  intro fuel
  induction fuel with
  | zero =>
    intro s out _ _ h
    cases h
  | succ n ih =>
    intro s out hb hstk h
    simp only [run] at h
    split at h
    · rename_i hemp
      cases h
      have he : s.frames = [] := by simpa [List.isEmpty_iff] using hemp
      exact ⟨he, hstk he⟩
    · rename_i hemp
      have hne : s.frames ≠ [] := by simpa [List.isEmpty_iff] using hemp
      split at h
      · rename_i s₁ hstep
        obtain ⟨hb₁, hstk₁⟩ := step_post hb hne hstep
        exact ih hb₁ hstk₁ h
      · cases h

/-- C1: at the failing input — floats `3` (pushed first) and `1` (on
top) — the opcodes `Sub`, `Mul`, `Div`, `Rem` do not push the
arithmetic results `2`, `3`, `3`, `0`, and `Greater`/`Less` do not push
the orderings `3 > 1` / `3 < 1`: the `binary_op!` macro ignores its
operator argument, so each of the six pops both operands and pushes the
raw-value equality `3 == 1`, i.e. `false` (only the net stack effect
`-1` of the claim holds). -/
theorem binary_ops_push_operand_equality :
    VM.sub { VMState.new with stack := [Value.float 3, Value.float 1] } =
      .ok { VMState.new with stack := [Value.vfalse] } ∧
    VM.mul { VMState.new with stack := [Value.float 3, Value.float 1] } =
      .ok { VMState.new with stack := [Value.vfalse] } ∧
    VM.div { VMState.new with stack := [Value.float 3, Value.float 1] } =
      .ok { VMState.new with stack := [Value.vfalse] } ∧
    VM.rem { VMState.new with stack := [Value.float 3, Value.float 1] } =
      .ok { VMState.new with stack := [Value.vfalse] } ∧
    VM.gt { VMState.new with stack := [Value.float 3, Value.float 1] } =
      .ok { VMState.new with stack := [Value.vfalse] } ∧
    VM.lt { VMState.new with stack := [Value.float 3, Value.float 1] } =
      .ok { VMState.new with stack := [Value.vfalse] } := by
  decide

/-- C2: the compiler emits `[Closure, is_local, index, constant]` for a
declaration with one upvalue (`function_decl_emit` on the pair
`(is_local = true, index = 0)` and the interned function value yields
exactly `declChunk`), but executing that instruction does not push a
closure over the declared function: `VM::closure` reads the constant
byte FIRST, so the `is_local` flag byte `1` is consumed as the constant
index and execution dies on the one-entry pool. -/
theorem closure_decodes_pair_byte_as_constant_index :
    Compiler.function_decl_emit (Chunk.new "top") [(true, 0)] (Value.obj 1) =
      .ok declChunk ∧
    step sampleEnv declState = .error "invalid constant index" := by
  decide

/-- C3: closing with threshold `1` while the only open upvalue sits at
slot `0` — strictly below the threshold — still closes it to
`Closed(stack[0])`: the comparison `slot >= threshold` computed inside
`close_upvalues` is discarded by `is_err`, so every open upvalue
transitions to closed whatever its slot. -/
theorem close_upvalues_ignores_threshold :
    VM.close_upvalues
      { VMState.new with
        stack := [Value.float 42]
        cells := [(.error 0 : Cell)]
        openUpvalues := [0] } 1 =
      .ok { VMState.new with
            stack := [Value.float 42]
            cells := [(.ok (Value.float 42) : Cell)]
            openUpvalues := [0] } := by
  decide

/-- C4 counterexample: `Call(0)` whose callee slot holds the float `1`
(neither a closure nor a native function) does not signal a fatal
runtime error — the machine is returned unchanged, and execution
continues silently. -/
theorem call_on_float_callee_is_silent :
    VM.call sampleEnv 0 { VMState.new with stack := [Value.float 1] } =
      .ok { VMState.new with stack := [Value.float 1] } := by
  decide

/-- C5 counterexample: `Add` on operands `true` (pushed first) and
`nil` (on top) — neither a float nor a heap string — is not a fatal
runtime error: both operands are popped, nothing is pushed, and the
machine continues. -/
theorem add_true_nil_is_silent :
    VM.add { VMState.new with stack := [Value.vtrue, Value.nil] } =
      .ok VMState.new := by
  decide

/-- C6 counterexample: the empty program is accepted by the compiler,
and after `VM::exec` finishes running it the frames stack is empty but
the operand stack is NOT empty — it holds exactly the top-level return
value `nil`. -/
theorem exec_empty_program_leaves_return_value :
    (exec sampleEnv 10 [] VMState.new).finalStack = some [Value.nil] ∧
    (exec sampleEnv 10 [] VMState.new).finalFrames = some [] ∧
    (exec sampleEnv 10 [] VMState.new).finalStack ≠ some [] := by
  decide

/-- C6: corrected — when `VM::exec`, started from an empty machine (no
operand values, no frames), finishes its program normally, the frames
stack is indeed empty, but the operand stack is NOT: it holds exactly
one value, the return value left by the implicit top-level `Return`
(whose push is popped by no one). -/
theorem exec_leaves_single_return_value {env : Env} {fuel : Nat} {atoms : List Expr}
    {s₀ out : VMState} (hstk : s₀.stack = []) (hfr : s₀.frames = [])
    (h : exec env fuel atoms s₀ = RunResult.ok out) :
    out.frames = [] ∧ ∃ v, out.stack = [v] := by
  unfold exec at h
  split at h
  · cases h
  · rename_i function heap' hcomp
    dsimp only [VMState.allocate] at h
    split at h
    · cases h
    · rename_i s₃ hpush
      split at h
      · cases h
      · rename_i s₄ hcall
        have hfr₃ : s₃.frames = [] := (push_frames hpush).trans hfr
        have hstk₃ : s₃.stack = [Value.obj heap'.length] := by
          rw [push_spec hpush]
          simp [hstk]
        obtain ⟨hb₄, hstk₄⟩ := call0_init hfr₃ ⟨_, hstk₃⟩ hcall
        exact run_post hb₄ hstk₄ h

theorem exec_leaves_single_return_value_witness :
    ∃ out, exec sampleEnv 10 [] VMState.new = RunResult.ok out ∧
      (out.frames = [] ∧ ∃ v, out.stack = [v]) := by
  cases hE : exec sampleEnv 10 [] VMState.new with
  | ok out => exact ⟨out, rfl, exec_leaves_single_return_value rfl rfl hE⟩
  | timeout =>
    have hf : (exec sampleEnv 10 [] VMState.new).finalFrames = some [] := by decide
    rw [hE] at hf
    cases hf
  | fatal msg =>
    have hf : (exec sampleEnv 10 [] VMState.new).finalFrames = some [] := by decide
    rw [hE] at hf
    cases hf

set_option maxRecDepth 10000 in
/-- C7 counterexample: a pool already holding 1024 pairwise distinct
constants accepts a 1025th distinct constant — `add_constant` does not
fail at 1024 entries. -/
theorem add_constant_1025th_succeeds :
    (chunk1024.add_constant (Value.obj 1024)).isOk = true := by
  decide

/-- C7 (amended): a chunk's constant pool holds at most 1028
constants: inserting any constant succeeds while the pool has fewer
than 1028 entries (so the 1024th and 1025th distinct constants both
succeed), and adding a constant not already interned to a pool of 1028
fails at compile time with the source's panic message. -/
theorem add_constant_capacity_1028 (c : Chunk) (v : Value) :
    (c.constants.length < 1028 → (c.add_constant v).isOk = true) ∧
    (c.constants.length = 1028 → v ∉ c.constants →
      c.add_constant v = .error "A chunk cannot have more than 1028 constants") := by
  constructor
  · intro hlen
    unfold Chunk.add_constant
    cases hf : c.constants.findIdx? (fun x => x = v) with
    | some j => simp [Except.isOk, Except.toBool]
    | none => simp [Nat.ne_of_lt hlen, Except.isOk, Except.toBool]
  · intro hlen hmem
    unfold Chunk.add_constant
    have hf : c.constants.findIdx? (fun x => x = v) = none := by
      rw [List.findIdx?_eq_none_iff]
      intro x hx
      simp only [decide_eq_false_iff_not]
      intro hxv
      exact hmem (hxv ▸ hx)
    rw [hf]
    simp [hlen]

set_option maxRecDepth 10000 in
/-- Witness for the amended C7 statement at concrete pools: an empty
pool accepts a constant; a full pool of 1028 rejects a fresh one. -/
theorem add_constant_capacity_1028_witness :
    ((Chunk.new "c").add_constant Value.nil).isOk = true ∧
    chunk1028.add_constant (Value.obj 2000) =
      .error "A chunk cannot have more than 1028 constants" :=
  ⟨(add_constant_capacity_1028 (Chunk.new "c") Value.nil).1 (by decide),
   (add_constant_capacity_1028 chunk1028 (Value.obj 2000)).2 (by decide) (by decide)⟩

/-- C9: repeated insertion of equal values is idempotent — if
`add_constant` returns index `i` and pool `c'`, calling it again with
the same value on `c'` returns the same index and leaves the pool
unchanged. -/
theorem add_constant_idempotent (c c' : Chunk) (v : Value) (i : Nat)
    (h : c.add_constant v = .ok (c', i)) :
    c'.add_constant v = .ok (c', i) := by
  unfold Chunk.add_constant at h ⊢
  cases hf : c.constants.findIdx? (fun x => x = v) with
  | some j =>
    rw [hf] at h
    cases h
    rw [hf]
  | none =>
    rw [hf] at h
    by_cases hlen : c.constants.length = 1028
    · simp [hlen] at h
    · simp only [hlen, if_false] at h
      cases h
      have hfind : (c.constants ++ [v]).findIdx? (fun x => decide (x = v)) =
          some c.constants.length := by
        simp [List.findIdx?_append, hf]
      simp only [hfind]
      simp

/-- Witness for C9 at a concrete pool: inserting `nil` into the pool
that already interned it returns index `0` and the unchanged pool. -/
theorem add_constant_idempotent_witness :
    ({ code := [], name := "w", constants := [Value.nil] } : Chunk).add_constant Value.nil =
      .ok ({ code := [], name := "w", constants := [Value.nil] }, 0) :=
  add_constant_idempotent (Chunk.new "w") _ Value.nil 0 (by decide)

/-- C4 (amended): for `Call(arity)` with the callee value at stack
index `stack_len - arity - 1`: a callee that decodes to a NON-object
(a float, `true`, `false` or `nil`) is silently ignored — the machine
is returned unchanged, no frame is pushed and no error is signalled —
while an OBJECT callee that is neither a closure nor a native function
is the fatal runtime error "bad call". -/
theorem call_non_callable (env : Env) (s : VMState) (arity fs : Nat) (callee : Value)
    (hfs : VM.frameStart s.stack.length arity = .ok fs)
    (hget : s.stack.get? fs = some callee) :
    (callee.as_object = none → VM.call env arity s = .ok s) ∧
    (∀ hdl o, callee = .obj hdl → s.heap.get? hdl = some o →
      (∀ cl, o ≠ .closure cl) → (∀ nf, o ≠ .nativeFunction nf) →
      VM.call env arity s = .error "bad call") := by
  constructor
  · intro hobj
    simp only [VM.call, hfs, bindOk, VMState.stackValueAt, hget, hobj]
  · intro hdl o hc hheap hncl hnf
    simp only [VM.call, hfs, bindOk, VMState.stackValueAt, hget, hc]
    cases o with
    | closure cl => exact absurd rfl (hncl cl)
    | nativeFunction nf => exact absurd rfl (hnf nf)
    | string str => simp only [Value.as_object, bindOk, VMState.deref, hheap]
    | function f => simp only [Value.as_object, bindOk, VMState.deref, hheap]
    | list l => simp only [Value.as_object, bindOk, VMState.deref, hheap]
    | dict d => simp only [Value.as_object, bindOk, VMState.deref, hheap]

/-- Witness for the amended C4 statement: a `nil` callee is silently
ignored; a string-object callee is the fatal "bad call". -/
theorem call_non_callable_witness :
    VM.call sampleEnv 0 { VMState.new with stack := [Value.nil] } =
      .ok { VMState.new with stack := [Value.nil] } ∧
    VM.call sampleEnv 0
        { VMState.new with stack := [Value.obj 0], heap := [Object.string "x"] } =
      .error "bad call" :=
  ⟨(call_non_callable sampleEnv { VMState.new with stack := [Value.nil] }
      0 0 Value.nil (by decide) (by decide)).1 (by decide),
   (call_non_callable sampleEnv
      { VMState.new with stack := [Value.obj 0], heap := [Object.string "x"] }
      0 0 (Value.obj 0) (by decide) (by decide)).2 0 (Object.string "x")
      rfl (by decide) (fun cl => by simp) (fun nf => by simp)⟩

/-- C5 (amended): executing `Add` where neither operand decodes to a
float and neither operand is a heap object (e.g. `nil + nil`,
`true + false`) is NOT a fatal runtime error: both operands are popped,
nothing is pushed, and execution continues silently. -/
theorem add_non_float_non_object_silent (s : VMState) (a b : Value)
    (ha : (∀ q, a ≠ .float q) ∧ a.as_object = none)
    (hb : (∀ q, b ≠ .float q) ∧ b.as_object = none) :
    VM.add { s with stack := s.stack ++ [a, b] } = .ok { s with stack := s.stack } := by
  obtain ⟨haf, hao⟩ := ha
  obtain ⟨hbf, hbo⟩ := hb
  have h1 : VMState.pop { s with stack := s.stack ++ [a, b] } =
      .ok (b, { s with stack := s.stack ++ [a] }) := by
    apply pop_concat
    simp
  have h2 : VMState.pop { s with stack := s.stack ++ [a] } =
      .ok (a, { s with stack := s.stack }) := pop_concat _ _ _ rfl
  simp only [VM.add, h1, bindOk, h2]
  cases a with
  | float q => exact absurd rfl (haf q)
  | obj h => simp [Value.as_object] at hao
  | vtrue =>
    cases b with
    | float q => exact absurd rfl (hbf q)
    | obj h => simp [Value.as_object] at hbo
    | vtrue => rfl
    | vfalse => rfl
    | nil => rfl
  | vfalse =>
    cases b with
    | float q => exact absurd rfl (hbf q)
    | obj h => simp [Value.as_object] at hbo
    | vtrue => rfl
    | vfalse => rfl
    | nil => rfl
  | nil =>
    cases b with
    | float q => exact absurd rfl (hbf q)
    | obj h => simp [Value.as_object] at hbo
    | vtrue => rfl
    | vfalse => rfl
    | nil => rfl

/-- Witness for the amended C5 statement: `false + true` silently pops
both operands and continues. -/
theorem add_non_float_non_object_silent_witness :
    VM.add { VMState.new with stack := [Value.vfalse, Value.vtrue] } = .ok VMState.new :=
  add_non_float_non_object_silent VMState.new Value.vfalse Value.vtrue
    ⟨(fun _ h => by cases h), rfl⟩ ⟨(fun _ h => by cases h), rfl⟩

/-- C10: `SetGlobal` on a machine whose constant names `name` — with
no hypothesis on whether `name` is already defined — never fails: it
binds `name` to the top-of-stack value through the update-or-insert
`globalsSet`, advances only the instruction pointer and leaves the
operand stack unchanged (the value is not popped); when `name` was
absent, the binding is a fresh insertion. -/
theorem set_global_binds_top_of_stack (s : VMState) (f : Frame) (rest : List Frame)
    (cl : Closure) (idx hdl : Nat) (name : String) (v : Value)
    (hframes : s.frames = f :: rest)
    (hcl : s.heap.get? f.closure = some (.closure cl))
    (hcode : cl.function.chunk.code.get? f.ip = some (.byte idx))
    (hconst : cl.function.chunk.constants.get? idx = some (.obj hdl))
    (hstr : s.heap.get? hdl = some (.string name))
    (htop : s.stack.getLast? = some v) :
    VM.set_global s =
      .ok { s with frames := { f with ip := f.ip + 1 } :: rest,
                   globals := globalsSet s.globals name v } ∧
    (s.globals.lookup name = none →
      globalsSet s.globals name v = s.globals ++ [(name, v)]) := by
  constructor
  · simp only [VM.set_global, VMState.readConstant, VMState.readByte, hframes,
      VMState.chunkOf, hcl, Object.as_closure, bindOk, hcode, VMState.readConstantAt,
      hconst, Value.as_object, VMState.deref, VMState.readString, hstr,
      Object.as_string, VMState.peek, htop, Chunk.get_constant]
  · intro h
    simp [globalsSet, h]

/-- Witness for C10 at a concrete machine: `"x"` is undefined, the top
of stack is `7`; `SetGlobal` inserts `"x" ↦ 7` and leaves the stack
untouched. -/
theorem set_global_binds_top_of_stack_witness :
    VM.set_global sgState =
      .ok { sgState with frames := [{ closure := 0, ip := 1, stackStart := 0 }],
                         globals := [("x", Value.float 7)] } :=
  (set_global_binds_top_of_stack sgState { closure := 0, ip := 0, stackStart := 0 } []
    sgClosure 0 1 "x" (Value.float 7) rfl (by decide) (by decide) (by decide)
    (by decide) (by decide)).1

/-- Monotonicity of the mark phase: already-stamped handles stay
stamped. -/
theorem gcMark_mono (children : Nat → List Nat) (objects : Finset Nat)
    (ws : List Nat) (m : Finset Nat) : m ⊆ gcMark children objects ws m := by
  induction ws, m using gcMark.induct children objects with
  | case1 m => rw [gcMark]
  | case2 h ws m hcond ih =>
    rw [gcMark, if_pos hcond]
    exact (Finset.subset_insert h m).trans ih
  | case3 h ws m hcond ih =>
    rw [gcMark, if_neg hcond]
    exact ih

/-- Worklist coverage of the mark phase: every live handle on the
worklist ends up stamped. -/
theorem gcMark_cover (children : Nat → List Nat) (objects : Finset Nat)
    (ws : List Nat) (m : Finset Nat) (h : Nat)
    (hmem : h ∈ ws) (hobj : h ∈ objects) : h ∈ gcMark children objects ws m := by
  induction ws, m using gcMark.induct children objects with
  | case1 m => cases hmem
  | case2 x ws m hcond ih =>
    rw [gcMark, if_pos hcond]
    rcases List.mem_cons.mp hmem with heq | htl
    · subst heq
      exact gcMark_mono children objects _ _ (Finset.mem_insert_self h m)
    · exact ih (List.mem_append_right _ htl)
  | case3 x ws m hcond ih =>
    rw [gcMark, if_neg hcond]
    rcases List.mem_cons.mp hmem with heq | htl
    · subst heq
      rcases Classical.em (h ∈ m) with hm | hm
      · exact gcMark_mono children objects _ _ hm
      · exact absurd ⟨hobj, hm⟩ hcond
    · exact ih htl

/-- Closure of the mark phase: the live referents of a handle stamped
during this collection are stamped too. -/
theorem gcMark_closure (children : Nat → List Nat) (objects : Finset Nat)
    (ws : List Nat) (m : Finset Nat) (h c : Nat)
    (hmem : h ∈ gcMark children objects ws m) (hnew : h ∉ m)
    (hc : c ∈ children h) (hcobj : c ∈ objects) :
    c ∈ gcMark children objects ws m := by
  induction ws, m using gcMark.induct children objects with
  | case1 m =>
    rw [gcMark] at hmem
    exact absurd hmem hnew
  | case2 x ws m hcond ih =>
    rw [gcMark, if_pos hcond] at hmem ⊢
    rcases Classical.em (h = x) with heq | hne
    · subst heq
      exact gcMark_cover children objects _ _ c
        (List.mem_append_left _ hc) hcobj
    · exact ih hmem (by simp [Finset.mem_insert, hne, hnew])
  | case3 x ws m hcond ih =>
    rw [gcMark, if_neg hcond] at hmem ⊢
    exact ih hmem hnew

/-- Completeness of the mark phase: every live handle reachable from
the mark roots is stamped by the traversal seeded with each root and
its referents. -/
theorem reach_marked (children : Nat → List Nat) (objects : Finset Nat)
    (roots : List Nat) (h : Nat)
    (hr : Reach children objects roots h) :
    h ∈ objects →
      h ∈ gcMark children objects (roots.flatMap (fun r => r :: children r)) ∅ := by
  induction hr with
  | root x hx =>
    intro hobj
    exact gcMark_cover children objects _ _ x
      (List.mem_flatMap.mpr ⟨x, hx, List.mem_cons_self x _⟩) hobj
  | rootChild r x hr hx =>
    intro hobj
    exact gcMark_cover children objects _ _ x
      (List.mem_flatMap.mpr ⟨r, hr, List.mem_cons_of_mem r hx⟩) hobj
  | step x y hx hxobj hy ih =>
    intro hobj
    exact gcMark_closure children objects _ _ x y (ih hxobj)
      (Finset.not_mem_empty x) hy hobj

/-- Soundness of `clean_excluding` on an abstract object graph: sweep
retains every live handle reachable from the still-rooted handles and
the live excluded handles. -/
theorem cleanExcluding_preserves_reachable (children : Nat → List Nat)
    (objects : Finset Nat) (rootedExternal excluding : List Nat) (h : Nat)
    (hobj : h ∈ objects)
    (hreach : Reach children objects
      (rootedExternal ++ excluding.filter (fun x => decide (x ∈ objects))) h) :
    h ∈ cleanExcluding children objects rootedExternal excluding := by
  unfold cleanExcluding
  simp only [Finset.mem_filter]
  exact ⟨hobj, reach_marked children objects _ h hreach hobj⟩

/-- C8: a collection triggered at an allocation point frees no live
object reachable, through object tracing, from the roots `VM::allocate`
excludes — the operand stack, the handle just allocated, the globals
map and the closed values of the open-upvalue list (`VMState.gcRoots`)
— or from the externally rooted handles: every such handle survives
`clean_excluding`. -/
theorem allocate_gc_preserves_reachable (s : VMState) (rootedExternal : List Nat)
    (handle h : Nat) (hobj : h ∈ s.liveObjects)
    (hreach : Reach s.childrenOf s.liveObjects
      (rootedExternal ++ (s.gcRoots handle).filter (fun x => decide (x ∈ s.liveObjects))) h) :
    h ∈ cleanExcluding s.childrenOf s.liveObjects rootedExternal (s.gcRoots handle) :=
  cleanExcluding_preserves_reachable s.childrenOf s.liveObjects rootedExternal
    (s.gcRoots handle) h hobj hreach

/-- Witness for C8 at a concrete heap: handle 1 is referenced only by
the list at handle 0 on the stack, and survives the collection. -/
theorem allocate_gc_preserves_reachable_witness :
    1 ∈ cleanExcluding gcState.childrenOf gcState.liveObjects [] (gcState.gcRoots 0) :=
  allocate_gc_preserves_reachable gcState [] 0 1 (by decide)
    (Reach.step 0 1 (Reach.root 0 (by decide)) (by decide) (by decide))

end Zub
